import Mathlib

/-!
# Verification of the Plagify front-end against its specification

Shallow embedding of the Plagify repository (a Next.js UI for a remote
code-similarity service).  JavaScript numbers are modelled as `JSNum`
(rationals plus `NaN` and the two infinities), JavaScript runtime values as
`JsVal`, and the stateful pieces of the code (the AST layout cursor, the
React state updated by `handleAnalyze`, the fetch calls) as explicit state
passing.  Each definition mirrors one function of the source; theorems at
the end of the file settle the specification claims.
-/

namespace Plagify

/-! ## JavaScript number model

A JavaScript number is an IEEE double.  The code under verification only
relies on exact arithmetic on decimal constants, comparisons, `Math.round`,
`Math.min`/`Math.max` and the `NaN`/`Infinity` special cases, so doubles are
modelled as rationals extended with `NaN` and signed infinities. -/

inductive JSNum where
  | nan : JSNum
  | inf : JSNum
  | ninf : JSNum
  | num (q : ℚ) : JSNum
deriving DecidableEq

namespace JSNum

/-- `Number.isFinite`. -/
def isFinite : JSNum → Bool
  | num _ => true
  | _ => false

/-- The JavaScript `<=` comparison on numbers (`NaN` compares false). -/
def jsLe : JSNum → JSNum → Bool
  | nan, _ => false
  | _, nan => false
  | ninf, _ => true
  | _, ninf => false
  | _, inf => true
  | inf, _ => false
  | num a, num b => a ≤ b

/-- JavaScript `<` on numbers (`NaN` compares false). -/
def jsLt : JSNum → JSNum → Bool
  | nan, _ => false
  | _, nan => false
  | inf, _ => false
  | _, inf => true
  | _, ninf => false
  | ninf, _ => true
  | num a, num b => a < b

/-- JavaScript multiplication (`NaN` propagates, `Infinity * 0 = NaN`). -/
def jsMul : JSNum → JSNum → JSNum
  | nan, _ => nan
  | _, nan => nan
  | inf, inf => inf
  | inf, ninf => ninf
  | ninf, inf => ninf
  | ninf, ninf => inf
  | inf, num q => if q = 0 then nan else if 0 < q then inf else ninf
  | num q, inf => if q = 0 then nan else if 0 < q then inf else ninf
  | ninf, num q => if q = 0 then nan else if 0 < q then ninf else inf
  | num q, ninf => if q = 0 then nan else if 0 < q then ninf else inf
  | num a, num b => num (a * b)

/-- `Math.min` (either argument `NaN` gives `NaN`). -/
def jsMin : JSNum → JSNum → JSNum
  | nan, _ => nan
  | _, nan => nan
  | ninf, _ => ninf
  | _, ninf => ninf
  | inf, b => b
  | a, inf => a
  | num a, num b => num (min a b)

/-- `Math.max` (either argument `NaN` gives `NaN`). -/
def jsMax : JSNum → JSNum → JSNum
  | nan, _ => nan
  | _, nan => nan
  | inf, _ => inf
  | _, inf => inf
  | ninf, b => b
  | a, ninf => a
  | num a, num b => num (max a b)

/-- `Math.round`: round half towards positive infinity on finite values. -/
def jsRound : JSNum → JSNum
  | nan => nan
  | inf => inf
  | ninf => ninf
  | num q => num ((⌊q + 1/2⌋ : ℤ) : ℚ)

end JSNum

/-- `Number.isNaN`. -/
def jsIsNaN (x : JSNum) : Bool := x = JSNum.nan

/-! ## JavaScript strings

Strings are Lean strings (the code only manipulates ASCII content in the
places the claims depend on).  `jsTrim` models `String.prototype.trim`,
`jsIsSpace` the `\s` character class on the usual ASCII whitespace. -/

/-- Membership of a character in the JavaScript `\s` class (ASCII part). -/
def jsIsSpace (c : Char) : Bool :=
  c = ' ' || c = '\t' || c = '\n' || c = '\r' || c = '\x0b' || c = '\x0c'

/-- `String.prototype.trim`. -/
def jsTrim (s : String) : String :=
  String.mk (((s.data.dropWhile jsIsSpace).reverse.dropWhile jsIsSpace).reverse)

/-- The decimal numeral of a natural number, least-significant digit first.
Models the digit sequence produced when JavaScript stringifies a natural
number. -/
def natDigitsRev (n : Nat) : List Nat :=
  if h : n < 10 then [n]
  else n % 10 :: natDigitsRev (n / 10)
decreasing_by exact Nat.div_lt_self (by omega) (by omega)

/-- Decimal digit to character. -/
def decDigitChar (d : Nat) : Char := Char.ofNat (48 + d)

/-- The decimal string of a natural number: the model of the JavaScript
number-to-string conversion used by template literals such as
`` `submission-${index + 1}` `` and `` `${counter}/${candidate}` ``. -/
def natDecStr (n : Nat) : String :=
  String.mk ((natDigitsRev n).reverse.map decDigitChar)

/-! ## JavaScript runtime values

`JsVal` models an arbitrary JavaScript value as seen by the dynamic checks
in the code (`typeof x === "string"`, truthiness, optional chaining).
`undef` is `undefined`.  JSON-parsed data is always a `JsVal`. -/

inductive JsVal where
  | undef : JsVal
  | null : JsVal
  | bool (b : Bool) : JsVal
  | num (x : JSNum) : JsVal
  | str (s : String) : JsVal
  | arr (elems : List JsVal) : JsVal
  | obj (fields : List (String × JsVal)) : JsVal

namespace JsVal

/-- Property access `v?.key`: the first binding of `key` on an object,
`undefined` (here `none`) otherwise. -/
def getField : JsVal → String → Option JsVal
  | obj fields, key => fields.lookup key
  | _, _ => none

/-- JavaScript truthiness. -/
def truthy : JsVal → Bool
  | undef => false
  | null => false
  | bool b => b
  | num JSNum.nan => false
  | num (JSNum.num q) => decide (q ≠ 0)
  | num _ => true
  | str s => decide (s ≠ "")
  | arr _ => true
  | obj _ => true

/-- The `String(...)` conversion.  Only the string case matters to the
claims; the numeric rendering is a stand-in for the JavaScript double
formatter. -/
def jsValToString : JsVal → String
  | undef => "undefined"
  | null => "null"
  | bool true => "true"
  | bool false => "false"
  | num JSNum.nan => "NaN"
  | num JSNum.inf => "Infinity"
  | num JSNum.ninf => "-Infinity"
  | num (JSNum.num q) => toString q
  | str s => s
  | arr _ => ""
  | obj _ => "[object Object]"

end JsVal

/-! ## `components/ASTVisualizer.tsx` -/

namespace ASTVisualizer

/-- The `ASTNode` type of the visualizer.  The TypeScript type has
`children?: ASTNode[]`; an absent `children` behaves exactly like `[]`
(every consumer reads it through `node.children ?? []`), so it is modelled
as a plain list. -/
inductive ASTNode where
  | mk (type : String) (value : Option String) (children : List ASTNode)

/-- The `type` field. -/
def ASTNode.type : ASTNode → String
  | mk t _ _ => t

/-- The `value` field. -/
def ASTNode.value : ASTNode → Option String
  | mk _ v _ => v

/-- The `children` field (via `?? []`). -/
def ASTNode.children : ASTNode → List ASTNode
  | mk _ _ c => c

/-- A node placed by the layout algorithm. -/
structure PositionedNode where
  id : Nat
  type : String
  value : Option String
  depth : Nat
  x : ℚ
  y : ℚ
  parentId : Option Nat
deriving DecidableEq

instance : Inhabited PositionedNode := ⟨⟨0, "", none, 0, 0, 0, none⟩⟩

def NODE_WIDTH : ℚ := 140
def NODE_HEIGHT : ℚ := 68
def HORIZONTAL_GAP : ℚ := 150
def VERTICAL_GAP : ℚ := 120
def MIN_SCALE : ℚ := 4/10
def MAX_SCALE : ℚ := 26/10

/-- The mutation `positions[i].x = v`. -/
def setPosX (positions : List PositionedNode) (i : Nat) (v : ℚ) : List PositionedNode :=
  positions.set i { positions.getD i default with x := v }

mutual

/-- The recursive `visit` closure of `layoutForest`.  The JavaScript
mutable state (the `positions` array and the `cursor` counter) is passed
explicitly; the result is `(positions, cursor, id)` after the call. -/
def visit (node : ASTNode) (depth : Nat) (parentId : Option Nat)
    (positions : List PositionedNode) (cursor : Nat) :
    List PositionedNode × Nat × Nat :=
  match node with
  | .mk ty value children =>
    let id := positions.length
    let positions := positions ++
      [⟨id, ty, value, depth, 0, (depth : ℚ) * VERTICAL_GAP, parentId⟩]
    match children with
    | [] =>
        (setPosX positions id ((cursor : ℚ) * HORIZONTAL_GAP), cursor + 1, id)
    | c :: cs =>
        let r := visitForest (c :: cs) (depth + 1) (some id) positions cursor
        let childIds := r.2.2
        let averageX :=
          (childIds.map (fun cid => (r.1.getD cid default).x)).sum /
            (childIds.length : ℚ)
        (setPosX r.1 id averageX, r.2.1, id)

/-- Sequential `children.map((child) => visit(child, ...))` over the shared
mutable state; also models the top-level `nodes.forEach(...)`. -/
def visitForest (nodes : List ASTNode) (depth : Nat) (parentId : Option Nat)
    (positions : List PositionedNode) (cursor : Nat) :
    List PositionedNode × Nat × List Nat :=
  match nodes with
  | [] => (positions, cursor, [])
  | n :: rest =>
      let r1 := visit n depth parentId positions cursor
      let r2 := visitForest rest depth parentId r1.1 r1.2.1
      (r2.1, r2.2.1, r1.2.2 :: r2.2.2)

end

/-- `layoutForest` just before the final normalization pass. -/
def layoutForestPre (nodes : List ASTNode) : List PositionedNode :=
  (visitForest nodes 0 none [] 0).1

/-- `layoutForest`: place every node, then shift all x so the minimum x
is 0. -/
def layoutForest (nodes : List ASTNode) : List PositionedNode :=
  let positions := layoutForestPre nodes
  if positions = [] then positions
  else
    let minX := ((positions.map (fun p => p.x)).min?).getD 0
    positions.map (fun p => { p with x := p.x - minX })

/-- The `clamp` helper of `ASTVisualizer.tsx`:
`Math.min(max, Math.max(min, value))`. -/
def clamp (value lo hi : ℚ) : ℚ := min hi (max lo value)

mutual

/-- The number of leaves (nodes with no children) of a tree, in layout
terms: how many horizontal cursor slots its subtree consumes. -/
def leafCount : ASTNode → Nat
  | .mk _ _ [] => 1
  | .mk _ _ (c :: cs) => leafCountList (c :: cs)

/-- Total leaf count of a forest. -/
def leafCountList : List ASTNode → Nat
  | [] => 0
  | n :: rest => leafCount n + leafCountList rest

end

mutual

/-- Tree size, for inductions over the layout recursion. -/
def szNode : ASTNode → Nat
  | .mk _ _ children => 1 + szForest children

/-- Forest size. -/
def szForest : List ASTNode → Nat
  | [] => 0
  | n :: rest => szNode n + szForest rest

end

/-- The x coordinates, in order, of the positioned nodes whose `parentId`
points at index `i` — the children of node `i` in the laid-out output. -/
def childXs (ps : List PositionedNode) (i : Nat) : List ℚ :=
  (ps.filter (fun p => p.parentId = some i)).map (fun p => p.x)

/-- Whether no positioned node names index `i` as its parent — index `i`
is a leaf of the laid-out output. -/
def isLeafIdx (ps : List PositionedNode) (i : Nat) : Bool :=
  ps.all (fun p => p.parentId ≠ some i)

/-- The x coordinates of the leaves of the laid-out output, in id
(left-to-right traversal) order. -/
def leafXs (ps : List PositionedNode) : List ℚ :=
  (ps.filter (fun p => isLeafIdx ps p.id)).map (fun p => p.x)

/-- Invariant of an already-built prefix: every parent reference points
inside it. -/
def ParentsClosed (ps : List PositionedNode) : Prop :=
  ∀ p ∈ ps, ∀ k, p.parentId = some k → k < ps.length

/-- The parent id handed to a recursive layout call is `undefined` or an
index of the already-built prefix. -/
def PidOk (ps : List PositionedNode) (pid : Option Nat) : Prop :=
  pid = none ∨ ∃ q, pid = some q ∧ q < ps.length

/-- Everything the layout recursion guarantees about one (forest-level)
call: starting from prefix `ps` and cursor `c` it appends a segment `new`,
advances the cursor by the forest's leaf count, hands back the root
indices `ids` (the appended elements whose parent is `pid`, in order),
and inside the full array `ps2` the appended elements carry their own
index as `id`, sit on the row `depth * VERTICAL_GAP`, point at `pid` or at
an earlier appended element, average their children's x, and give their
leaves the consecutive cursor slots starting at `c`. -/
def SpecF (pid : Option Nat) (ps : List PositionedNode) (c : Nat)
    (l : List ASTNode) (ps2 : List PositionedNode) (c2 : Nat)
    (ids : List Nat) : Prop :=
  ∃ new : List PositionedNode,
    ps2 = ps ++ new ∧
    c2 = c + leafCountList l ∧
    ids.length = l.length ∧
    (∀ a ∈ ids, ps.length ≤ a ∧ a < ps2.length) ∧
    new.filter (fun p => p.parentId = pid) =
      ids.map (fun a => ps2.getD a default) ∧
    (∀ p ∈ new, ps.length ≤ p.id ∧ p.id < ps2.length ∧
       p.y = (p.depth : ℚ) * VERTICAL_GAP ∧
       (p.parentId = pid ∨
        ∃ k, ps.length ≤ k ∧ k < p.id ∧ p.parentId = some k)) ∧
    (∀ i, ps.length ≤ i → i < ps2.length → childXs ps2 i ≠ [] →
       (ps2.getD i default).x =
         (childXs ps2 i).sum / ((childXs ps2 i).length : ℚ)) ∧
    (new.filter (fun p => isLeafIdx ps2 p.id)).map (fun p => p.x) =
      (List.range' c (leafCountList l)).map
        (fun k : ℕ => (k : ℚ) * HORIZONTAL_GAP)

/-- The pan/zoom camera state. -/
structure ViewState where
  scale : ℚ
  offsetX : ℚ
  offsetY : ℚ
deriving DecidableEq

/-- `handleWheel`: zoom anchored at the mouse position `(mouseX, mouseY)`
(already translated to canvas coordinates). -/
def handleWheel (view : ViewState) (mouseX mouseY deltaY : ℚ) : ViewState :=
  let scaleDelta : ℚ := if deltaY < 0 then 112/100 else 9/10
  let nextScale := clamp (view.scale * scaleDelta) MIN_SCALE MAX_SCALE
  let worldX := (mouseX - view.offsetX) / view.scale
  let worldY := (mouseY - view.offsetY) / view.scale
  { scale := nextScale
  , offsetX := mouseX - worldX * nextScale
  , offsetY := mouseY - worldY * nextScale }

end ASTVisualizer

/-! ## `lib/apiPlaceholders.ts` -/

namespace ApiPlaceholders

/-- The request payload of the single-compare call. -/
structure CompareCodesPayload where
  language : String
  reference_code : String
  submission_code : String
deriving DecidableEq

/-- One bulk submission. -/
structure BulkSubmissionInput where
  id : String
  code : String
deriving DecidableEq

/-- The request payload of the bulk-compare call. -/
structure BulkComparePayload where
  language : String
  reference_code : String
  submissions : List BulkSubmissionInput
deriving DecidableEq

/-- The `CompareCodesResponse` DTO.  The nested optional objects
(`reference.metrics`, `reference.ast`, `submission.metrics`,
`submission.ast`, `normalized.reference_code`,
`normalized.submission_code`) are flattened into fields; `none` is an
absent (or nullish) field.  The `ok` and `message` fields are kept as raw
runtime values because the code tests them dynamically (`!data?.ok`,
`data?.message || ...`). -/
structure CompareCodesResponse where
  ok : Option JsVal
  plagiarism_score : Option JSNum
  risk_level : Option String
  semantic_similarity : Option JSNum
  ast_similarity : Option JSNum
  token_similarity : Option JSNum
  explanation : Option String
  submission_quality_score : Option JSNum
  submission_quality_label : Option String
  submission_quality_explanation : Option String
  reference_metrics : Option JsVal
  reference_ast : Option JsVal
  submission_metrics : Option JsVal
  submission_ast : Option JsVal
  normalized_reference_code : Option String
  normalized_submission_code : Option String
  message : Option JsVal

/-- One entry of the bulk response.  Fields that the UI feeds through the
dynamic coercions (`normalizePercent`, `coerceNumber`, `coerceAst`) are
raw runtime values. -/
structure BulkCompareResult where
  id : String
  plagiarism_score : JsVal
  risk_level : Option String
  semantic_similarity : JsVal
  ast_similarity : JsVal
  token_similarity : JsVal
  explanation : Option String
  quality_score : JsVal
  quality_label : Option String
  quality_explanation : Option String
  submission_ast : JsVal
  normalized_code : Option String
  metrics : Option JsVal

/-- The bulk response DTO. -/
structure BulkCompareResponse where
  ok : Option JsVal
  results : List BulkCompareResult
  message : Option JsVal

/-- The observable part of a `fetch` outcome: `ok` is `response.ok`, and
`body` is the value produced by `response.json()` (`none` when that call
throws on an unparsable body).  A JSON body that is not an object reaches
the code only through optional-chaining field reads, so it behaves exactly
like — and is represented as — a record with every field absent. -/
structure FetchResponse (α : Type) where
  ok : Bool
  body : Option α

/-- The error message chosen by `data?.message || fallback`. -/
def errorMessageOf (message : Option JsVal) (fallback : String) : String :=
  match message with
  | some m => if m.truthy then m.jsValToString else fallback
  | none => fallback

/-- `data?.ok` truthiness. -/
def okFieldTruthy (ok : Option JsVal) : Bool :=
  match ok with
  | some v => v.truthy
  | none => false

/-- `compareCodes`, as a function of the single `fetch` outcome. -/
def compareCodes (payload : CompareCodesPayload)
    (response : FetchResponse CompareCodesResponse) :
    Except String CompareCodesResponse :=
  let _ := payload
  match response.body with
  | none => .error "Unable to parse analysis response"
  | some data =>
      if response.ok = false ∨ okFieldTruthy data.ok = false then
        .error (errorMessageOf data.message "Analysis failed")
      else
        .ok data

/-- The part of `bulkCompare` after its `fetch` resolves. -/
def bulkAfterFetch (response : FetchResponse BulkCompareResponse) :
    Except String BulkCompareResponse :=
  match response.body with
  | none => .error "Unable to parse bulk analysis response"
  | some data =>
      if response.ok = false ∨ okFieldTruthy data.ok = false then
        .error (errorMessageOf data.message "Bulk analysis failed")
      else
        .ok data

/-- `bulkCompare`: an empty submission list throws before the `fetch`. -/
def bulkCompare (payload : BulkComparePayload)
    (response : FetchResponse BulkCompareResponse) :
    Except String BulkCompareResponse :=
  if payload.submissions = [] then
    .error "Add at least one submission to compare"
  else
    bulkAfterFetch response

/-- `compareCodes` run against a queue of available `fetch` outcomes: each
executed `fetch` consumes one entry, and the function is stuck (`none`)
only if it needs a response the queue does not hold.  The remaining queue
witnesses how many fetches the invocation issued. -/
def runCompareCodes (payload : CompareCodesPayload)
    (responses : List (FetchResponse CompareCodesResponse)) :
    Option (Except String CompareCodesResponse ×
      List (FetchResponse CompareCodesResponse)) :=
  match responses with
  | [] => none
  | r :: rest => some (compareCodes payload r, rest)

/-- `bulkCompare` run against a queue of available `fetch` outcomes (see
`runCompareCodes`).  The early throw on an empty submission list happens
before any `fetch`. -/
def runBulkCompare (payload : BulkComparePayload)
    (responses : List (FetchResponse BulkCompareResponse)) :
    Option (Except String BulkCompareResponse ×
      List (FetchResponse BulkCompareResponse)) :=
  if payload.submissions = [] then
    some (.error "Add at least one submission to compare", responses)
  else
    match responses with
    | [] => none
    | r :: rest => some (bulkAfterFetch r, rest)

/-- The `clamp` helper of `apiPlaceholders.ts`:
`Math.max(min, Math.min(max, value))`. -/
def clamp (value lo hi : ℚ) : ℚ := max lo (min hi value)

/-- `Math.round` on an exact rational. -/
def roundQ (q : ℚ) : ℚ := ((⌊q + 1/2⌋ : ℤ) : ℚ)

/-- The result shape of the legacy `checkPlagiarism` placeholder. -/
structure CheckPlagiarismResult where
  similarityPercent : ℚ
  embeddingSim : ℚ
  structureSim : ℚ
  matchedLines : List (Nat × Nat)
  insights : List String
deriving DecidableEq

/-- The legacy `checkPlagiarism` placeholder (the 600 ms `delay()` has no
observable effect on the returned value and is not modelled).  String
lengths are code-unit counts; the inputs used in the theorems are ASCII. -/
def checkPlagiarism (codeA codeB : String) : CheckPlagiarismResult :=
  let diff : ℚ := |(codeA.length : ℚ) - (codeB.length : ℚ)|
  let similarityPercent := clamp (95 - diff * (5/100)) 10 98
  { similarityPercent := roundQ similarityPercent
  , embeddingSim := clamp (65/100 + (1 - diff / 400) * (25/100)) 0 (99/100)
  , structureSim := clamp (55/100 + (1 - diff / 300) * (3/10)) 0 (95/100)
  , matchedLines := [(3, 5), (14, 17)]
  , insights := ["High loop similarity", "Similar function structure"] }

/-- The number of parts `code.split(/function|=>/)` produces: one more
than the number of non-overlapping matches, scanning left to right. -/
def splitParts (cs : List Char) : Nat :=
  if h : cs = [] then 1
  else if "function".data.isPrefixOf cs then
    splitParts (cs.drop 8) + 1
  else if "=>".data.isPrefixOf cs then
    splitParts (cs.drop 2) + 1
  else
    splitParts (cs.drop 1)
termination_by cs.length
decreasing_by
  all_goals
    have hl : 0 < cs.length := List.length_pos.mpr h
    simp only [List.length_drop]
    omega

/-- Whether `pat` occurs as a contiguous run inside `cs`. -/
def containsSeq (pat : List Char) : List Char → Bool
  | [] => pat.isPrefixOf []
  | c :: rest => pat.isPrefixOf (c :: rest) || containsSeq pat rest

/-- `/\/\//.test(code)`: the string contains two adjacent slashes. -/
def hasLineComment (code : String) : Bool :=
  containsSeq "//".data code.data

/-- The result shape of the legacy `checkCodeQuality` placeholder. -/
structure CheckCodeQualityResult where
  qualityScore : ℚ
  issues : List String
deriving DecidableEq

/-- The legacy `checkCodeQuality` placeholder (`delay()` not modelled). -/
def checkCodeQuality (code : String) : CheckCodeQualityResult :=
  let lengthScore := clamp (100 - (code.length : ℚ) * (2/100)) 55 95
  let issues :=
    (if hasLineComment code = false then ["Low comment ratio"] else []) ++
    (if 3 < splitParts code.data then ["Consider splitting into modules"] else []) ++
    (if 240 < code.length then ["Function too long"] else [])
  let issues :=
    if issues = [] then ["Looks solid – add tests for certainty"] else issues
  { qualityScore := roundQ lengthScore, issues := issues }

/-- The result shape of the legacy `generateAST` placeholder. -/
structure GenerateASTResult where
  nodes : List ASTVisualizer.ASTNode

/-- The legacy `generateAST` placeholder (`delay()` not modelled): an AST
built locally from the first four non-blank trimmed lines of the code. -/
def generateAST (code : String) : GenerateASTResult :=
  let lines := (((code.splitOn "\n").map jsTrim).filter
    (fun line => line ≠ "")).take 4
  { nodes :=
      [ASTVisualizer.ASTNode.mk "FunctionDeclaration" none
        (lines.enum.map (fun il =>
          ASTVisualizer.ASTNode.mk
            (if il.1 = 0 then "Identifier" else "Statement")
            (some (String.mk (il.2.data.take 40))) []))] }

end ApiPlaceholders

/-! ## The API proxy routes

Both route handlers are modelled as functions of the already-parsed JSON
request body (`await request.json()` succeeded; a parse failure takes the
outer `catch` and returns 500, outside the claims' scope) and of an
upstream oracle mapping the forwarded payload to the upstream `fetch`
outcome.  Each handler returns its `NextResponse` together with the
payload it forwarded upstream, `none` when no upstream request was made. -/

/-- What the handler observes of the upstream service's answer: the HTTP
status, and the JSON value parsed from the response text (`none` when the
text is empty or fails `JSON.parse`). -/
structure UpstreamResponse where
  status : Nat
  body : Option JsVal

/-- `Response.ok`: status in the range 200–299. -/
def fetchOk (status : Nat) : Bool := 200 ≤ status && status < 300

/-- A `NextResponse.json(body, { status })` value. -/
structure RouteResponse where
  status : Nat
  body : JsVal

/-- `typeof body?.key === "string" ? body.key : dflt`. -/
def strFieldOr (body : JsVal) (key : String) (dflt : String) : String :=
  match body.getField key with
  | some (.str s) => s
  | _ => dflt

/-- The upstream-error message:
`typeof data?.message === "string" ? data.message : "Upstream error (<status>)"`. -/
def upstreamErrorMessage (data : Option JsVal) (status : Nat) : String :=
  match data.bind (fun j => j.getField "message") with
  | some (.str m) => m
  | _ => "Upstream error (" ++ natDecStr status ++ ")"

namespace CompareRoute

/-- The body the single-compare route forwards upstream. -/
structure SentPayload where
  language : String
  reference_code : String
  submission_code : String
deriving DecidableEq

/-- The `{ ok: false, message: "Empty upstream response" }` fallback. -/
def emptyUpstreamBody : JsVal :=
  .obj [("ok", .bool false), ("message", .str "Empty upstream response")]

/-- The validation failure body of the single-compare route. -/
def requiredBody : JsVal :=
  .obj [("ok", .bool false),
        ("message", .str "Both reference_code and submission_code are required")]

/-- The `POST` handler of `app/api/compare/route.ts`. -/
def POST (body : JsVal) (upstream : SentPayload → UpstreamResponse) :
    RouteResponse × Option SentPayload :=
  let language := strFieldOr body "language" "python"
  let reference_code := strFieldOr body "reference_code" ""
  let submission_code := strFieldOr body "submission_code" ""
  if jsTrim reference_code = "" ∨ jsTrim submission_code = "" then
    (⟨400, requiredBody⟩, none)
  else
    let sent : SentPayload := ⟨language, reference_code, submission_code⟩
    let resp := upstream sent
    let data := resp.body
    if fetchOk resp.status = false then
      (⟨resp.status,
        .obj [("ok", .bool false),
              ("message", .str (upstreamErrorMessage data resp.status)),
              ("details", data.getD .null)]⟩, some sent)
    else
      (⟨200,
        match data with
        | some .null => emptyUpstreamBody
        | some j => j
        | none => emptyUpstreamBody⟩, some sent)

end CompareRoute

namespace BulkRoute

/-- One sanitized submission (`SubmissionInput`). -/
structure SubmissionInput where
  id : String
  code : String
deriving DecidableEq

/-- The body the bulk route forwards upstream. -/
structure SentPayload where
  language : String
  reference_code : String
  submissions : List SubmissionInput
deriving DecidableEq

/-- `sanitizeSubmissions`: on a non-array input return `[]`; otherwise map
each entry to `{ id, code }` — the id is the trimmed `id` field when that
field is a non-blank string and `"submission-" + (index + 1)` otherwise,
the code is the `code` field when it is a string and `""` otherwise — and
keep the entries whose code has non-whitespace content.  The argument is
`body?.submissions`, so `none` is `undefined`. -/
def sanitizeSubmissions (input : Option JsVal) : List SubmissionInput :=
  match input with
  | some (.arr entries) =>
      (entries.enum.map (fun ie =>
        let index := ie.1
        let entry := ie.2
        let id : String :=
          match entry.getField "id" with
          | some (.str s) =>
              if jsTrim s ≠ "" then jsTrim s
              else "submission-" ++ natDecStr (index + 1)
          | _ => "submission-" ++ natDecStr (index + 1)
        let code : String :=
          match entry.getField "code" with
          | some (.str s) => s
          | _ => ""
        (⟨id, code⟩ : SubmissionInput))).filter
        (fun e => 0 < (jsTrim e.code).length)
  | _ => []

/-- The claim's reading of `sanitizeSubmissions`, written for comparison
with the source definition: keep exactly the entries whose `code` field is
a string with non-whitespace content, giving the entry at position `index`
the default id `"submission-" + (index + 1)` when its `id` field is
missing, not a string, or blank, and its trimmed `id` otherwise. -/
def sanitizeSubmissionsSpec (input : Option JsVal) : List SubmissionInput :=
  match input with
  | some (.arr entries) =>
      entries.enum.filterMap (fun ie =>
        match ie.2.getField "code" with
        | some (.str code) =>
            if jsTrim code ≠ "" then
              some ⟨(match ie.2.getField "id" with
                     | some (.str s) =>
                         if jsTrim s ≠ "" then jsTrim s
                         else "submission-" ++ natDecStr (ie.1 + 1)
                     | _ => "submission-" ++ natDecStr (ie.1 + 1)), code⟩
            else none
        | _ => none)
  | _ => []

/-- `{ ok: false, message: "reference_code is required" }`. -/
def refRequiredBody : JsVal :=
  .obj [("ok", .bool false), ("message", .str "reference_code is required")]

/-- `{ ok: false, message: "At least one submission is required" }`. -/
def subRequiredBody : JsVal :=
  .obj [("ok", .bool false),
        ("message", .str "At least one submission is required")]

/-- `{ ok: false, message: "Empty upstream response" }`. -/
def emptyUpstreamBody : JsVal :=
  .obj [("ok", .bool false), ("message", .str "Empty upstream response")]

/-- `!data` for a parsed-or-null JSON value: `null`, absent, `false`, `0`
and `""` are falsy. -/
def dataFalsy (data : Option JsVal) : Bool :=
  match data with
  | none => true
  | some j => j.truthy = false

/-- The `POST` handler of the bulk-compare route. -/
def POST (body : JsVal) (upstream : SentPayload → UpstreamResponse) :
    RouteResponse × Option SentPayload :=
  let language := strFieldOr body "language" "python"
  let reference_code := strFieldOr body "reference_code" ""
  let submissions := sanitizeSubmissions (body.getField "submissions")
  if jsTrim reference_code = "" then
    (⟨400, refRequiredBody⟩, none)
  else if submissions = [] then
    (⟨400, subRequiredBody⟩, none)
  else
    let sent : SentPayload := ⟨language, reference_code, submissions⟩
    let resp := upstream sent
    let data := resp.body
    if fetchOk resp.status = false then
      (⟨resp.status,
        .obj [("ok", .bool false),
              ("message", .str (upstreamErrorMessage data resp.status)),
              ("details", data.getD .null)]⟩, some sent)
    else if dataFalsy data then
      (⟨500, emptyUpstreamBody⟩, some sent)
    else
      (⟨200, data.getD .null⟩, some sent)

end BulkRoute

/-! ## `components/screens/CheckerScreen.tsx` -/

namespace CheckerScreen

open ApiPlaceholders ASTVisualizer

/-! ### String-to-number coercion

`coerceFinite` feeds strings through `Number(value)`.  `jsStringToNumber`
models that builtin on trimmed decimal literals (optional sign, integer
and/or fractional digits, optional exponent) and `Infinity`; the empty
string converts to `0` and anything else to `NaN`. -/

/-- The numeric value of a digit run, most significant first. -/
def qOfDigits (ds : List Char) : ℚ :=
  ((ds.foldl (fun n c => n * 10 + (c.toNat - 48)) 0 : Nat) : ℚ)

/-- The integer value of a digit run, most significant first. -/
def zOfDigits (ds : List Char) : ℤ :=
  ((ds.foldl (fun n c => n * 10 + (c.toNat - 48)) 0 : Nat) : ℤ)

/-- Parse the optional exponent suffix: empty means exponent `0`. -/
def parseExpPart (cs : List Char) : Option ℤ :=
  match cs with
  | [] => some 0
  | e :: rest =>
      if e = 'e' || e = 'E' then
        match rest with
        | '+' :: ds =>
            if ds ≠ [] && ds.all Char.isDigit then some (zOfDigits ds) else none
        | '-' :: ds =>
            if ds ≠ [] && ds.all Char.isDigit then some (-zOfDigits ds) else none
        | ds =>
            if ds ≠ [] && ds.all Char.isDigit then some (zOfDigits ds) else none
      else none

/-- Parse `digits`, `digits.digits`, `digits.` or `.digits`, returning the
mantissa and the unconsumed rest. -/
def parseMantissa (cs : List Char) : Option (ℚ × List Char) :=
  let intPart := cs.takeWhile Char.isDigit
  let rest := cs.dropWhile Char.isDigit
  match rest with
  | '.' :: rest2 =>
      let frac := rest2.takeWhile Char.isDigit
      let rest3 := rest2.dropWhile Char.isDigit
      if intPart = [] && frac = [] then none
      else some (qOfDigits intPart + qOfDigits frac / (10 : ℚ) ^ frac.length, rest3)
  | _ => if intPart = [] then none else some (qOfDigits intPart, rest)

/-- Parse an unsigned decimal literal with optional exponent. -/
def parseUnsignedNumber (cs : List Char) : Option ℚ :=
  match parseMantissa cs with
  | none => none
  | some (m, rest) => (parseExpPart rest).map (fun e => m * (10 : ℚ) ^ e)

/-- Parse the part after the optional sign. -/
def parseAfterSign (cs : List Char) (neg : Bool) : JSNum :=
  if cs = "Infinity".data then if neg then .ninf else .inf
  else
    match parseUnsignedNumber cs with
    | some q => .num (if neg then -q else q)
    | none => .nan

/-- The `Number(string)` conversion (decimal forms). -/
def jsStringToNumber (s : String) : JSNum :=
  match (jsTrim s).data with
  | [] => .num 0
  | '+' :: rest => parseAfterSign rest false
  | '-' :: rest => parseAfterSign rest true
  | cs => parseAfterSign cs false

/-- `coerceFinite`: a finite number, or a string whose `Number(...)`
conversion is finite; otherwise `null`. -/
def coerceFinite (v : JsVal) : Option ℚ :=
  match v with
  | .num (JSNum.num q) => some q
  | .num _ => none
  | .str s =>
      match jsStringToNumber s with
      | JSNum.num q => some q
      | _ => none
  | _ => none

/-- `clampPercent`: `NaN` to `0`, then `Math.max(0, Math.min(100, value))`. -/
def clampPercent (value : JSNum) : JSNum :=
  if jsIsNaN value then .num 0
  else JSNum.jsMax (.num 0) (JSNum.jsMin (.num 100) value)

/-- `normalizePercent`. -/
def normalizePercent (value : JsVal) : Option JSNum :=
  match coerceFinite value with
  | none => none
  | some numeric =>
      let percent : ℚ := if numeric ≤ 1 then numeric * 100 else numeric
      some (clampPercent (.num percent))

/-- `coerceNumber`: `coerceFinite(value) ?? 0`. -/
def coerceNumber (value : JsVal) : ℚ := (coerceFinite value).getD 0

/-! ### `coerceAst` -/

/-- A chain `a ?? b ?? ... ?? dflt` of nullish coalescing over optional
(possibly absent) values. -/
def nullishChain (cands : List (Option JsVal)) (dflt : JsVal) : JsVal :=
  match cands with
  | [] => dflt
  | none :: rest => nullishChain rest dflt
  | some .null :: rest => nullishChain rest dflt
  | some .undef :: rest => nullishChain rest dflt
  | some v :: _ => v

/-- `hasAstIdentity`: `"type" in input || "name" in input || "kind" in input`. -/
def hasAstIdentity (fields : List (String × JsVal)) : Bool :=
  fields.any (fun f => f.1 = "type") || fields.any (fun f => f.1 = "name") ||
    fields.any (fun f => f.1 = "kind")

/-- `typeof input === "object"` for a non-null value. -/
def isObjectLike : JsVal → Bool
  | .arr _ => true
  | .obj _ => true
  | _ => false

/-- `record.children ?? record.body ?? record.args ?? null`. -/
def childrenSource (input : JsVal) : JsVal :=
  nullishChain
    [input.getField "children", input.getField "body", input.getField "args"]
    .null

theorem mem_of_lookup {fields : List (String × JsVal)} {k : String}
    {v : JsVal} (h : fields.lookup k = some v) : ∃ k2, (k2, v) ∈ fields := by
  induction fields with
  | nil => simp [List.lookup] at h
  | cons hd tl ih =>
      rw [List.lookup] at h
      by_cases hk : k == hd.1
      · simp [hk] at h
        exact ⟨hd.1, by simp [← h]⟩
      · simp [hk] at h
        obtain ⟨k2, hm⟩ := ih h
        exact ⟨k2, List.mem_cons_of_mem _ hm⟩

theorem sizeOf_lt_of_getField {j : JsVal} {k : String} {v : JsVal}
    (h : j.getField k = some v) : sizeOf v < sizeOf j := by
  match j with
  | .obj fields =>
      simp only [JsVal.getField] at h
      obtain ⟨k2, hm⟩ := mem_of_lookup h
      have h1 : sizeOf (k2, v) < sizeOf fields := List.sizeOf_lt_of_mem hm
      have h2 : sizeOf (JsVal.obj fields) = 1 + sizeOf fields := by simp
      simp only [Prod.mk.sizeOf_spec] at h1
      omega

theorem sizeOf_nullishChain_lt {cands : List (Option JsVal)} {dflt : JsVal}
    (bound : Nat) (hc : ∀ o ∈ cands, ∀ v, o = some v → sizeOf v < bound)
    (hd : sizeOf dflt < bound) : sizeOf (nullishChain cands dflt) < bound := by
  induction cands with
  | nil => simpa [nullishChain] using hd
  | cons hd2 tl ih =>
      match hd2 with
      | none => exact ih (fun o ho v hv => hc o (List.mem_cons_of_mem _ ho) v hv)
      | some .null => exact ih (fun o ho v hv => hc o (List.mem_cons_of_mem _ ho) v hv)
      | some .undef => exact ih (fun o ho v hv => hc o (List.mem_cons_of_mem _ ho) v hv)
      | some (.bool b) => exact hc _ (List.mem_cons_self _ _) _ rfl
      | some (.num x) => exact hc _ (List.mem_cons_self _ _) _ rfl
      | some (.str s) => exact hc _ (List.mem_cons_self _ _) _ rfl
      | some (.arr elems) => exact hc _ (List.mem_cons_self _ _) _ rfl
      | some (.obj fields) => exact hc _ (List.mem_cons_self _ _) _ rfl

theorem sizeOf_childrenSource_lt {input : JsVal}
    (h : isObjectLike input = true) :
    sizeOf (childrenSource input) < sizeOf input := by
  have hb : 2 ≤ sizeOf input := by
    match input, h with
    | .arr elems, _ => have : 1 ≤ sizeOf elems := by cases elems <;> simp_arith
                       simp_arith [this]
    | .obj fields, _ => have : 1 ≤ sizeOf fields := by cases fields <;> simp_arith
                        simp_arith [this]
  refine sizeOf_nullishChain_lt (sizeOf input) ?_ ?_
  case refine_2 =>
    have h1 : sizeOf JsVal.null = 1 := by simp_arith
    omega
  intro o ho v hv
  subst hv
  simp only [childrenSource, List.mem_cons, List.not_mem_nil, or_false] at ho
  rcases ho with h1 | h1 | h1 <;> exact sizeOf_lt_of_getField h1.symm

mutual

/-- `coerceAst`: coerce an arbitrary JSON-ish value into a list of
visualizer nodes.  The trailing `.filter(Boolean)` calls of the source are
identities on arrays of (always truthy) node objects and are not written
out. -/
def coerceAst (input : JsVal) : List ASTNode :=
  if input.truthy = false then []
  else
    match input with
    | .arr elems =>
        (elems.attach.map (fun x => coerceAstNode x.1)).reduceOption
    | .obj fields =>
        if hasAstIdentity fields then
          match coerceAstNode (.obj fields) with
          | some single => [single]
          | none => []
        else
          (fields.attach.map (fun kv => coerceAst kv.1.2)).flatten
    | _ => []
termination_by (sizeOf input, 1)
decreasing_by
  · exact Prod.Lex.left _ _ (by
      have h := List.sizeOf_lt_of_mem x.2
      simp_arith
      omega)
  · exact Prod.Lex.right _ (by omega)
  · exact Prod.Lex.left _ _ (by
      have h1 := List.sizeOf_lt_of_mem kv.2
      have h2 : sizeOf kv.1.2 < sizeOf kv.1 := by
        obtain ⟨⟨a, b⟩, hm⟩ := kv
        simp_arith
      simp_arith at h1 ⊢
      omega)

/-- `coerceAstNode`. -/
def coerceAstNode (input : JsVal) : Option ASTNode :=
  if input.truthy = false ∨ isObjectLike input = false then none
  else
    let ty := JsVal.jsValToString
      (nullishChain
        [input.getField "type", input.getField "kind", input.getField "name"]
        (.str "Node"))
    let value : Option String :=
      match input.getField "value" with
      | some (.str s) => some s
      | _ =>
          match input.getField "name" with
          | some (.str s) => some s
          | _ => none
    some (ASTNode.mk ty value (coerceAst (childrenSource input)))
termination_by (sizeOf input, 0)
decreasing_by
  exact Prod.Lex.left _ _ (by
    have hobj : isObjectLike input = true := by
      rename_i hcond
      exact eq_true_of_ne_false (fun hf => hcond (Or.inr hf))
    exact sizeOf_childrenSource_lt hobj)

end

/-! ### Analysis mapping -/

/-- `value || dflt` for an optional string field. -/
def strOrDefault (v : Option String) (dflt : String) : String :=
  match v with
  | some s => if s ≠ "" then s else dflt
  | none => dflt

/-- The `AnalysisResult` view model. -/
structure AnalysisResult where
  similarityPercent : JSNum
  riskLevel : String
  semanticSimilarity : JSNum
  astSimilarity : JSNum
  tokenSimilarity : JSNum
  explanation : String
  referenceMetrics : Option JsVal
  submissionMetrics : Option JsVal
  normalizedReference : Option String
  normalizedSubmission : Option String
  referenceAst : List ASTNode
  submissionAst : List ASTNode
  qualityScore : Option JSNum
  qualityLabel : Option String
  qualityExplanation : Option String

/-- `mapToAnalysis`. -/
def mapToAnalysis (response : CompareCodesResponse) : AnalysisResult :=
  let percentRaw := response.plagiarism_score.getD (.num 0)
  let similarityPercent :=
    if JSNum.jsLe percentRaw (.num 1) then JSNum.jsRound (JSNum.jsMul percentRaw (.num 100))
    else JSNum.jsRound percentRaw
  { similarityPercent := clampPercent similarityPercent
  , riskLevel := strOrDefault response.risk_level "pending"
  , semanticSimilarity := response.semantic_similarity.getD (.num 0)
  , astSimilarity := response.ast_similarity.getD (.num 0)
  , tokenSimilarity := response.token_similarity.getD (.num 0)
  , explanation :=
      strOrDefault response.explanation "No explanation returned by the analyzer."
  , referenceMetrics := response.reference_metrics
  , submissionMetrics := response.submission_metrics
  , normalizedReference := response.normalized_reference_code
  , normalizedSubmission := response.normalized_submission_code
  , referenceAst := coerceAst (response.reference_ast.getD .undef)
  , submissionAst := coerceAst (response.submission_ast.getD .undef)
  , qualityScore := response.submission_quality_score
  , qualityLabel := response.submission_quality_label
  , qualityExplanation := response.submission_quality_explanation }

/-- The `BulkResultView` view model. -/
structure BulkResultView where
  id : String
  similarityPercent : JSNum
  riskLevel : String
  semanticSimilarity : ℚ
  astSimilarity : ℚ
  tokenSimilarity : ℚ
  explanation : Option String
  qualityScore : Option JSNum
  qualityLabel : Option String
  qualityExplanation : Option String
  submissionAst : List ASTNode
  normalizedSubmission : Option String
  submissionMetrics : Option JsVal

/-- `mapBulkResults`. -/
def mapBulkResults (results : List BulkCompareResult) : List BulkResultView :=
  results.map (fun result =>
    { id := result.id
    , similarityPercent := (normalizePercent result.plagiarism_score).getD (.num 0)
    , riskLevel := strOrDefault result.risk_level "pending"
    , semanticSimilarity := coerceNumber result.semantic_similarity
    , astSimilarity := coerceNumber result.ast_similarity
    , tokenSimilarity := coerceNumber result.token_similarity
    , explanation := result.explanation
    , qualityScore := normalizePercent result.quality_score
    , qualityLabel := result.quality_label
    , qualityExplanation := result.quality_explanation
    , submissionAst := coerceAst result.submission_ast
    , normalizedSubmission := result.normalized_code
    , submissionMetrics := result.metrics })

/-! ### Bulk submission ids -/

/-- `name.replace(/\.[^/.]+$/, "")`: drop a final dot followed by one or
more characters none of which is a slash or a dot. -/
def stripExtension (name : String) : String :=
  let rev := name.data.reverse
  let seg := rev.takeWhile (fun c => c ≠ '.' && c ≠ '/')
  let rest := rev.drop seg.length
  match rest with
  | '.' :: remaining => if seg = [] then name else String.mk remaining.reverse
  | _ => name

theorem dropWhile_length_le (p : Char → Bool) :
    ∀ l : List Char, (l.dropWhile p).length ≤ l.length := by
  intro l
  induction l with
  | nil => simp [List.dropWhile]
  | cons a t ih =>
      rw [List.dropWhile]
      split
      · exact ih.trans (by simp)
      · simp

/-- `.replace(/\s+/g, "_")`: each maximal whitespace run becomes one
underscore. -/
def collapseWs : List Char → List Char
  | [] => []
  | c :: rest =>
      if jsIsSpace c then '_' :: collapseWs (rest.dropWhile jsIsSpace)
      else c :: collapseWs rest
termination_by cs => cs.length
decreasing_by
  · have := dropWhile_length_le jsIsSpace rest
    simp_arith
    omega
  · simp_arith

/-- `deriveSubmissionIdFromFilename`. -/
def deriveSubmissionIdFromFilename (name : String) : String :=
  let withoutExtension := stripExtension name
  let normalized := String.mk (collapseWs (jsTrim withoutExtension).data)
  if normalized = "" then "Submission" else normalized

/-- The template `` `${counter}/${candidate}` ``. -/
def mkNumberedId (counter : Nat) (candidate : String) : String :=
  natDecStr counter ++ "/" ++ candidate

theorem natDigitsRev_ne_nil (n : Nat) : natDigitsRev n ≠ [] := by
  rw [natDigitsRev]
  split <;> simp

theorem natDigitsRev_eq (n : Nat) :
    natDigitsRev n = if n < 10 then [n] else n % 10 :: natDigitsRev (n / 10) := by
  rw [natDigitsRev]
  split <;> simp_all

theorem natDigitsRev_inj : ∀ m n, natDigitsRev m = natDigitsRev n → m = n := by
  intro m
  induction m using Nat.strong_induction_on with
  | _ m ih =>
      intro n h
      rw [natDigitsRev_eq m, natDigitsRev_eq n] at h
      rcases Nat.lt_or_ge m 10 with hm | hm <;>
        rcases Nat.lt_or_ge n 10 with hn | hn
      · rw [if_pos hm, if_pos hn] at h
        simpa using h
      · rw [if_pos hm, if_neg (by omega)] at h
        injection h with h1 h2
        exact absurd h2.symm (natDigitsRev_ne_nil _)
      · rw [if_neg (by omega), if_pos hn] at h
        injection h with h1 h2
        exact absurd h2 (natDigitsRev_ne_nil _)
      · rw [if_neg (by omega), if_neg (by omega)] at h
        injection h with h1 h2
        have hdiv : m / 10 = n / 10 :=
          ih (m / 10) (Nat.div_lt_self (by omega) (by omega)) _ h2
        omega

theorem natDigitsRev_lt_ten (n : Nat) : ∀ d ∈ natDigitsRev n, d < 10 := by
  induction n using Nat.strong_induction_on with
  | _ n ih =>
      intro d hd
      rw [natDigitsRev] at hd
      by_cases hn : n < 10 <;> simp [hn] at hd
      · omega
      · rcases hd with h | h
        · omega
        · exact ih (n / 10) (Nat.div_lt_self (by omega) (by omega)) d h

theorem decDigitChar_inj :
    ∀ d < 10, ∀ e < 10, decDigitChar d = decDigitChar e → d = e := by decide

theorem map_decDigitChar_inj :
    ∀ l1 l2 : List Nat, (∀ d ∈ l1, d < 10) → (∀ d ∈ l2, d < 10) →
      l1.map decDigitChar = l2.map decDigitChar → l1 = l2 := by
  intro l1
  induction l1 with
  | nil => intro l2 _ _ h; cases l2 <;> simp_all
  | cons a t ih =>
      intro l2 h1 h2 h
      cases l2 with
      | nil => simp_all
      | cons b t2 =>
          simp only [List.map_cons, List.cons.injEq] at h
          have ha : a = b :=
            decDigitChar_inj a (h1 a (by simp)) b (h2 b (by simp)) h.1
          have ht : t = t2 :=
            ih t2 (fun d hd => h1 d (by simp [hd]))
              (fun d hd => h2 d (by simp [hd])) h.2
          rw [ha, ht]

theorem natDecStr_data_inj {m n : Nat}
    (h : (natDecStr m).data = (natDecStr n).data) : m = n := by
  simp only [natDecStr] at h
  have h2 := map_decDigitChar_inj (natDigitsRev m).reverse (natDigitsRev n).reverse
    (fun d hd => natDigitsRev_lt_ten m d (List.mem_reverse.mp hd))
    (fun d hd => natDigitsRev_lt_ten n d (List.mem_reverse.mp hd)) h
  exact natDigitsRev_inj m n (List.reverse_injective h2)

theorem mkNumberedId_left_inj {m n : Nat} {candidate : String}
    (h : mkNumberedId m candidate = mkNumberedId n candidate) : m = n := by
  have hd : (mkNumberedId m candidate).data = (mkNumberedId n candidate).data := by
    rw [h]
  simp only [mkNumberedId, String.data_append] at hd
  exact natDecStr_data_inj
    (List.append_cancel_right (List.append_cancel_right hd))

theorem exists_unused_numbered_id (candidate : String) (registry : List String) :
    ∃ n, mkNumberedId (n + 1) candidate ∉ registry := by
  by_contra hall
  push_neg at hall
  set l := (List.range (registry.length + 1)).map
    (fun n => mkNumberedId (n + 1) candidate) with hl
  have hnd : l.Nodup := by
    refine List.Nodup.map ?_ (List.nodup_range _)
    intro a b hab
    have := mkNumberedId_left_inj hab
    omega
  have hsub : l ⊆ registry := by
    intro x hx
    simp only [hl, List.mem_map, List.mem_range] at hx
    obtain ⟨n, _, rfl⟩ := hx
    exact hall n
  have hlen : l.length = registry.length + 1 := by simp [hl]
  have := (hnd.subperm hsub).length_le
  omega

/-- `reserveUniqueSubmissionId`: the registry (a JavaScript `Set`) is the
list of already reserved ids; return the reserved id and the grown
registry.  The `while` loop is the least counter whose numbered id is not
yet reserved. -/
def reserveUniqueSubmissionId (baseId : String) (registry : List String) :
    String × List String :=
  let candidate := if baseId = "" then "Submission" else baseId
  if candidate ∈ registry then
    let n := Nat.find (exists_unused_numbered_id candidate registry)
    let unique := mkNumberedId (n + 1) candidate
    (unique, unique :: registry)
  else
    (candidate, candidate :: registry)

/-- The `Object.entries(fileMap).forEach` loop of
`buildBulkSubmissionPayload`, with the registry passed along. -/
def buildBulkPayloadGo :
    List (String × String) → List String → List BulkSubmissionInput
  | [], _ => []
  | (filename, code) :: rest, registry =>
      if jsTrim code = "" then buildBulkPayloadGo rest registry
      else
        let baseId := deriveSubmissionIdFromFilename filename
        let r := reserveUniqueSubmissionId baseId registry
        ⟨r.1, code⟩ :: buildBulkPayloadGo rest r.2

/-- `buildBulkSubmissionPayload`.  The uploaded-file map is its entry list
in insertion order (JavaScript string-keyed records preserve it). -/
def buildBulkSubmissionPayload (fileMap : List (String × String)) :
    List BulkSubmissionInput :=
  buildBulkPayloadGo fileMap []

/-! ### `handleAnalyze` -/

/-- The `mode` state. -/
inductive Mode where
  | single : Mode
  | bulk : Mode
deriving DecidableEq

/-- The `SortOption` type. -/
inductive SortOption where
  | plagiarism : SortOption
  | quality : SortOption
deriving DecidableEq

/-- The slice of the component state `handleAnalyze` touches. -/
structure ScreenState where
  analysis : Option AnalysisResult
  bulkResults : Option (List BulkResultView)
  errorMessage : Option String
  isAnalyzing : Bool
  bulkSortBy : SortOption
  selectedBulkId : Option String

/-- The `catch`/`finally` tail of `handleAnalyze`: record the message,
leave everything else as it was, stop the spinner. -/
def analyzeFail (st : ScreenState) (msg : String) : ScreenState :=
  { st with errorMessage := some msg, isAnalyzing := false }

/-- `handleAnalyze`, as a state transition.  Its asynchronous API calls
are supplied as the already-settled `fetch` outcomes (`singleResp`,
`bulkResp`); the editors' language is the constant `"python"`. -/
def handleAnalyze (st : ScreenState) (mode : Mode) (codeA codeB : String)
    (uploadedFiles : List (String × String))
    (singleResp : FetchResponse CompareCodesResponse)
    (bulkResp : FetchResponse BulkCompareResponse) : ScreenState :=
  if jsTrim codeA = "" then analyzeFail st "Reference code cannot be empty"
  else
    match mode with
    | .single =>
        if jsTrim codeB = "" then analyzeFail st "Submission code cannot be empty"
        else
          match compareCodes ⟨"python", codeA, codeB⟩ singleResp with
          | .error e => analyzeFail st e
          | .ok response =>
              { st with analysis := some (mapToAnalysis response)
                      , bulkResults := none
                      , errorMessage := none
                      , isAnalyzing := false }
    | .bulk =>
        let normalizedSubmissions := buildBulkSubmissionPayload uploadedFiles
        if normalizedSubmissions = [] then
          analyzeFail st "Upload at least one Python file to compare"
        else
          match bulkCompare ⟨"python", codeA, normalizedSubmissions⟩ bulkResp with
          | .error e => analyzeFail st e
          | .ok response =>
              { st with bulkResults := some (mapBulkResults response.results)
                      , bulkSortBy := .plagiarism
                      , selectedBulkId := none
                      , analysis := none
                      , errorMessage := none
                      , isAnalyzing := false }

end CheckerScreen

/-! ## Theorems settling the claims -/

section Claims

open ASTVisualizer ApiPlaceholders CheckerScreen

/-- C8: zoom is an affine transform anchored at the cursor.  For every
wheel event at `(mouseX, mouseY)` over a view with non-zero scale, the new
view maps the world point that was under the cursor back to the same
screen point, and the new scale lies in `[0.4, 2.6]`. -/
theorem claim_C8 (view : ViewState) (mouseX mouseY deltaY : ℚ)
    (hscale : view.scale ≠ 0) :
    (MIN_SCALE ≤ (handleWheel view mouseX mouseY deltaY).scale ∧
      (handleWheel view mouseX mouseY deltaY).scale ≤ MAX_SCALE) ∧
    (mouseX - view.offsetX) / view.scale *
        (handleWheel view mouseX mouseY deltaY).scale +
        (handleWheel view mouseX mouseY deltaY).offsetX = mouseX ∧
    (mouseY - view.offsetY) / view.scale *
        (handleWheel view mouseX mouseY deltaY).scale +
        (handleWheel view mouseX mouseY deltaY).offsetY = mouseY := by
  have _ := hscale
  refine ⟨⟨?_, ?_⟩, ?_, ?_⟩
  · exact le_min (by norm_num [MIN_SCALE, MAX_SCALE]) (le_max_left _ _)
  · exact min_le_left _ _
  · simp only [handleWheel]
    ring
  · simp only [handleWheel]
    ring

/-- Witness for C8 at the initial view `{scale 1, offset (0, 60)}` and a
zoom-in wheel event at `(5, 7)`. -/
theorem claim_C8_witness :
    (ViewState.mk 1 0 60).scale ≠ 0 ∧
    ((MIN_SCALE ≤ (handleWheel ⟨1, 0, 60⟩ 5 7 (-1)).scale ∧
       (handleWheel ⟨1, 0, 60⟩ 5 7 (-1)).scale ≤ MAX_SCALE) ∧
     ((5 : ℚ) - (ViewState.mk 1 0 60).offsetX) / (ViewState.mk 1 0 60).scale *
         (handleWheel ⟨1, 0, 60⟩ 5 7 (-1)).scale +
         (handleWheel ⟨1, 0, 60⟩ 5 7 (-1)).offsetX = 5 ∧
     ((7 : ℚ) - (ViewState.mk 1 0 60).offsetY) / (ViewState.mk 1 0 60).scale *
         (handleWheel ⟨1, 0, 60⟩ 5 7 (-1)).scale +
         (handleWheel ⟨1, 0, 60⟩ 5 7 (-1)).offsetY = 7) :=
  ⟨by decide, claim_C8 ⟨1, 0, 60⟩ 5 7 (-1) (by decide)⟩

/-- C2 counterexample: `checkPlagiarism` computes a similarity percentage
locally from the code strings — its result is a pure function of the
code's characters (here, of the string lengths), with no HTTP response in
sight, so "no function in this codebase computes a similarity score ...
locally" is false. -/
theorem claim_C2_counterexample :
    (checkPlagiarism "abc" "a").similarityPercent = 95 ∧
    (checkPlagiarism (String.mk (List.replicate 101 'a')) "a").similarityPercent = 90 ∧
    (checkPlagiarism "abc" "a").similarityPercent ≠
      (checkPlagiarism (String.mk (List.replicate 101 'a')) "a").similarityPercent := by
  have h1 : (("abc" : String).length : ℚ) = 3 := by norm_num [String.length]
  have h2 : (("a" : String).length : ℚ) = 1 := by norm_num [String.length]
  have h3 : ((String.mk (List.replicate 101 'a')).length : ℚ) = 101 := by
    norm_num [String.length]
  have e1 : (checkPlagiarism "abc" "a").similarityPercent = 95 := by
    simp only [checkPlagiarism, h1, h2]
    have hc : ApiPlaceholders.clamp (95 - |(3 : ℚ) - 1| * (5/100)) 10 98 = 949/10 := by
      norm_num [ApiPlaceholders.clamp, min_def, max_def]
    rw [hc, roundQ]
    have h4 : (⌊(949 : ℚ)/10 + 1/2⌋ : ℤ) = 95 := by
      rw [Int.floor_eq_iff]
      norm_num
    rw [h4]
    norm_num
  have e2 : (checkPlagiarism (String.mk (List.replicate 101 'a')) "a").similarityPercent
      = 90 := by
    simp only [checkPlagiarism, h2, h3]
    have hc : ApiPlaceholders.clamp (95 - |(101 : ℚ) - 1| * (5/100)) 10 98 = 90 := by
      norm_num [ApiPlaceholders.clamp, min_def, max_def]
    rw [hc, roundQ]
    have h4 : (⌊(90 : ℚ) + 1/2⌋ : ℤ) = 90 := by
      rw [Int.floor_eq_iff]
      norm_num
    rw [h4]
    norm_num
  refine ⟨e1, e2, ?_⟩
  rw [e1, e2]
  norm_num

/-- C2 (amended): the live analysis path is pure delegation — whatever
value `compareCodes` or `bulkCompare` returns is exactly the parsed HTTP
response body; but the legacy placeholder functions retained in
`apiPlaceholders.ts` do compute similarity/quality/AST values locally. -/
theorem claim_C2 :
    (∀ (payload : CompareCodesPayload)
        (response : FetchResponse CompareCodesResponse)
        (data : CompareCodesResponse),
        compareCodes payload response = .ok data → response.body = some data) ∧
    (∀ (payload : BulkComparePayload)
        (response : FetchResponse BulkCompareResponse)
        (data : BulkCompareResponse),
        bulkCompare payload response = .ok data → response.body = some data) := by
  constructor
  · intro payload response data h
    unfold compareCodes at h
    match hb : response.body with
    | none => rw [hb] at h; exact absurd h (by simp)
    | some d =>
        rw [hb] at h
        simp only at h
        split at h
        · exact absurd h (by simp)
        · simp only [Except.ok.injEq] at h
          rw [h]
  · intro payload response data h
    unfold bulkCompare bulkAfterFetch at h
    split at h
    · exact absurd h (by simp)
    · match hb : response.body with
      | none => rw [hb] at h; exact absurd h (by simp)
      | some d =>
          rw [hb] at h
          simp only at h
          split at h
          · exact absurd h (by simp)
          · simp only [Except.ok.injEq] at h
            rw [h]

/-- Witness for C2 (amended): a successful compare call returns exactly
the body the HTTP layer delivered. -/
theorem claim_C2_witness :
    (FetchResponse.mk true
        (some (CompareCodesResponse.mk (some (.bool true)) none none none none
          none none none none none none none none none none none none))).body =
      some (CompareCodesResponse.mk (some (.bool true)) none none none none
        none none none none none none none none none none none none) :=
  claim_C2.1 ⟨"python", "a", "b"⟩
    ⟨true, some (CompareCodesResponse.mk (some (.bool true)) none none none none
      none none none none none none none none none none none none)⟩
    (CompareCodesResponse.mk (some (.bool true)) none none none none
      none none none none none none none none none none none none)
    rfl

/-- C7 counterexample: an invocation of `bulkCompare` with an empty
submission list throws before its `fetch`, so it issues zero fetches to
the bulk endpoint, not exactly one — the response queue comes back
untouched. -/
theorem claim_C7_counterexample :
    runBulkCompare ⟨"python", "ref", []⟩ [⟨true, none⟩] =
      some (.error "Add at least one submission to compare", [⟨true, none⟩]) :=
  rfl

/-- C7 (amended): no invocation of `compareCodes` or `bulkCompare` ever
issues more than one fetch, and a failed call is never re-issued:
`compareCodes` consumes exactly one queued response whatever its status,
parseability or `ok` field, as does `bulkCompare` on a non-empty
submission list, while `bulkCompare` on an empty submission list throws
before consuming any. -/
theorem claim_C7 :
    (∀ (payload : CompareCodesPayload) (r : FetchResponse CompareCodesResponse)
        (rest : List (FetchResponse CompareCodesResponse)),
        runCompareCodes payload (r :: rest) = some (compareCodes payload r, rest)) ∧
    (∀ (payload : BulkComparePayload) (r : FetchResponse BulkCompareResponse)
        (rest : List (FetchResponse BulkCompareResponse)),
        payload.submissions ≠ [] →
        runBulkCompare payload (r :: rest) = some (bulkAfterFetch r, rest)) ∧
    (∀ (payload : BulkComparePayload)
        (responses : List (FetchResponse BulkCompareResponse)),
        payload.submissions = [] →
        runBulkCompare payload responses =
          some (.error "Add at least one submission to compare", responses)) :=
  ⟨fun _ _ _ => rfl,
   fun _ _ _ h => by simp [runBulkCompare, h],
   fun _ _ h => by simp [runBulkCompare, h]⟩

/-- Witness for C7 (amended): a bulk call with one submission consumes
exactly its one queued response, leaving the rest of the queue. -/
theorem claim_C7_witness :
    runBulkCompare ⟨"python", "ref", [⟨"s1", "print(1)"⟩]⟩
        [⟨false, none⟩, ⟨true, none⟩] =
      some (bulkAfterFetch ⟨false, none⟩, [⟨true, none⟩]) :=
  claim_C7.2.1 ⟨"python", "ref", [⟨"s1", "print(1)"⟩]⟩ ⟨false, none⟩
    [⟨true, none⟩] (by simp)

theorem clampPercent_mem (x : JSNum) :
    ∃ q : ℚ, clampPercent x = .num q ∧ 0 ≤ q ∧ q ≤ 100 := by
  match x with
  | .nan => exact ⟨0, by simp [clampPercent, jsIsNaN], by norm_num, by norm_num⟩
  | .inf =>
      refine ⟨100, ?_, by norm_num, by norm_num⟩
      simp [clampPercent, jsIsNaN, JSNum.jsMin, JSNum.jsMax]
  | .ninf =>
      refine ⟨0, ?_, by norm_num, by norm_num⟩
      simp [clampPercent, jsIsNaN, JSNum.jsMin, JSNum.jsMax]
  | .num q =>
      refine ⟨max 0 (min 100 q), ?_, le_max_left _ _, ?_⟩
      · simp [clampPercent, jsIsNaN, JSNum.jsMin, JSNum.jsMax]
      · exact max_le (by norm_num) (min_le_left _ _)

/-- C10: every similarity or quality percentage the UI derives lies in
`[0, 100]`: `clampPercent` sends every number (including `NaN`, mapped
to 0) into `[0, 100]`; `normalizePercent` is `null` exactly on values that
are not finite numbers or numeric strings and otherwise clamps the
hundred-fold of values at most 1 (the value itself above 1); and
`mapToAnalysis` takes `clampPercent` of the rounded (and, for raw scores
at most 1, hundred-fold) `plagiarism_score`. -/
theorem claim_C10 :
    (∀ x : JSNum, ∃ q : ℚ, clampPercent x = .num q ∧ 0 ≤ q ∧ q ≤ 100) ∧
    (∀ v : JsVal,
       (normalizePercent v = none ↔ coerceFinite v = none) ∧
       (∀ q : ℚ, coerceFinite v = some q →
          normalizePercent v =
            some (clampPercent (.num (if q ≤ 1 then q * 100 else q)))) ∧
       (∀ y : JSNum, normalizePercent v = some y →
          ∃ q : ℚ, y = .num q ∧ 0 ≤ q ∧ q ≤ 100)) ∧
    (∀ response : CompareCodesResponse,
       (mapToAnalysis response).similarityPercent =
         clampPercent
           (if JSNum.jsLe (response.plagiarism_score.getD (.num 0)) (.num 1) then
              JSNum.jsRound
                (JSNum.jsMul (response.plagiarism_score.getD (.num 0)) (.num 100))
            else JSNum.jsRound (response.plagiarism_score.getD (.num 0))) ∧
       (∃ q : ℚ, (mapToAnalysis response).similarityPercent = .num q ∧
          0 ≤ q ∧ q ≤ 100)) := by
  refine ⟨clampPercent_mem, fun v => ⟨?_, ?_, ?_⟩, fun response => ⟨rfl, ?_⟩⟩
  · cases hc : coerceFinite v <;> simp [normalizePercent, hc]
  · intro q hq
    simp [normalizePercent, hq]
  · intro y hy
    unfold normalizePercent at hy
    cases hc : coerceFinite v with
    | none => rw [hc] at hy; exact absurd hy (by simp)
    | some q =>
        rw [hc] at hy
        simp only [Option.some.injEq] at hy
        rw [← hy]
        exact clampPercent_mem _
  · exact clampPercent_mem _

/-- Witness for C10 at the raw score `0.5`: it is scaled to `50` and the
clamped result lies in `[0, 100]`. -/
theorem claim_C10_witness :
    (normalizePercent (.num (.num (1/2))) =
       some (clampPercent
         (.num (if (1/2 : ℚ) ≤ 1 then (1/2 : ℚ) * 100 else (1/2 : ℚ))))) ∧
    (∃ q : ℚ, clampPercent (.num 50) = .num q ∧ 0 ≤ q ∧ q ≤ 100) :=
  ⟨(claim_C10.2.1 (.num (.num (1/2)))).2.1 (1/2) rfl,
   (claim_C10.2.1 (.num (.num (1/2)))).2.2 (clampPercent (.num 50)) (by
     norm_num [normalizePercent, coerceFinite, clampPercent, jsIsNaN,
       JSNum.jsMin, JSNum.jsMax])⟩

theorem jsTrim_empty : jsTrim "" = "" := rfl

theorem strFieldOr_trim_empty_iff (body : JsVal) (key : String) :
    (jsTrim (strFieldOr body key "") = "" ↔
      ¬∃ s, body.getField key = some (.str s) ∧ jsTrim s ≠ "") := by
  unfold strFieldOr
  cases hg : body.getField key with
  | none => simp [jsTrim_empty]
  | some v => cases v <;> simp [jsTrim_empty]

theorem strFieldOr_default (body : JsVal) (key d : String)
    (h : ∀ s, body.getField key ≠ some (.str s)) : strFieldOr body key d = d := by
  unfold strFieldOr
  cases hg : body.getField key with
  | none => rfl
  | some v => cases v <;> first | rfl | exact absurd hg (h _)

/-- C3: the single-compare proxy returns 400 with
`"Both reference_code and submission_code are required"` exactly when
`reference_code` or `submission_code` is absent, not a string, or
whitespace-only; in that case no upstream request is made, and when a
request is made its payload carries the given code strings and a language
defaulting to `"python"` whenever the `language` field is missing or not a
string. -/
theorem claim_C3 (body : JsVal)
    (upstream : CompareRoute.SentPayload → UpstreamResponse) :
    (((CompareRoute.POST body upstream).1.status = 400 ∧
       (CompareRoute.POST body upstream).1.body = CompareRoute.requiredBody) ↔
      ((¬∃ s, body.getField "reference_code" = some (.str s) ∧ jsTrim s ≠ "") ∨
       (¬∃ s, body.getField "submission_code" = some (.str s) ∧ jsTrim s ≠ ""))) ∧
    (((¬∃ s, body.getField "reference_code" = some (.str s) ∧ jsTrim s ≠ "") ∨
      (¬∃ s, body.getField "submission_code" = some (.str s) ∧ jsTrim s ≠ "")) →
      (CompareRoute.POST body upstream).2 = none) ∧
    (∀ sent, (CompareRoute.POST body upstream).2 = some sent →
       sent.language = strFieldOr body "language" "python" ∧
       ((∀ s, body.getField "language" ≠ some (.str s)) →
         sent.language = "python") ∧
       sent.reference_code = strFieldOr body "reference_code" "" ∧
       sent.submission_code = strFieldOr body "submission_code" "") := by
  have hiff : (jsTrim (strFieldOr body "reference_code" "") = "" ∨
      jsTrim (strFieldOr body "submission_code" "") = "") ↔
      ((¬∃ s, body.getField "reference_code" = some (.str s) ∧ jsTrim s ≠ "") ∨
       (¬∃ s, body.getField "submission_code" = some (.str s) ∧ jsTrim s ≠ "")) :=
    or_congr (strFieldOr_trim_empty_iff body "reference_code")
      (strFieldOr_trim_empty_iff body "submission_code")
  by_cases hcond : jsTrim (strFieldOr body "reference_code" "") = "" ∨
      jsTrim (strFieldOr body "submission_code" "") = ""
  · have hpost : CompareRoute.POST body upstream =
        (⟨400, CompareRoute.requiredBody⟩, none) := by
      simp only [CompareRoute.POST]
      rw [if_pos hcond]
    refine ⟨⟨fun _ => hiff.mp hcond, fun _ => by rw [hpost]; exact ⟨rfl, rfl⟩⟩,
      fun _ => by rw [hpost], fun sent hsent => ?_⟩
    rw [hpost] at hsent
    exact absurd hsent (by simp)
  · have hne : ((CompareRoute.POST body upstream).1.status = 400 ∧
        (CompareRoute.POST body upstream).1.body = CompareRoute.requiredBody →
          False) ∧
        (CompareRoute.POST body upstream).2 =
          some ⟨strFieldOr body "language" "python",
                strFieldOr body "reference_code" "",
                strFieldOr body "submission_code" ""⟩ := by
      simp only [CompareRoute.POST]
      rw [if_neg hcond]
      split
      · refine ⟨fun hc => ?_, rfl⟩
        simp [CompareRoute.requiredBody] at hc
      · refine ⟨fun hc => ?_, rfl⟩
        simp at hc
    refine ⟨⟨fun h => absurd h hne.1, fun h => absurd (hiff.mpr h) hcond⟩,
      fun h => absurd (hiff.mpr h) hcond, fun sent hsent => ?_⟩
    rw [hne.2] at hsent
    simp only [Option.some.injEq] at hsent
    subst hsent
    exact ⟨rfl, fun h => strFieldOr_default body "language" "python" h, rfl, rfl⟩

/-- Witness for C3: a body whose `submission_code` is missing is rejected
with the 400 message and produces no upstream request. -/
theorem claim_C3_witness :
    ((CompareRoute.POST (JsVal.obj [("reference_code", .str "a")])
        (fun _ => ⟨200, none⟩)).1.status = 400 ∧
      (CompareRoute.POST (JsVal.obj [("reference_code", .str "a")])
        (fun _ => ⟨200, none⟩)).1.body = CompareRoute.requiredBody) ∧
    (CompareRoute.POST (JsVal.obj [("reference_code", .str "a")])
        (fun _ => ⟨200, none⟩)).2 = none :=
  ⟨(claim_C3 (JsVal.obj [("reference_code", .str "a")]) (fun _ => ⟨200, none⟩)).1.mpr
     (Or.inr (by simp [JsVal.getField, List.lookup])),
   (claim_C3 (JsVal.obj [("reference_code", .str "a")]) (fun _ => ⟨200, none⟩)).2.1
     (Or.inr (by simp [JsVal.getField, List.lookup]))⟩

/-- C6 counterexample: when the upstream answers 2xx with the parsable,
non-empty body `"null"` (the JSON literal `null`), the proxy does *not*
forward it unchanged — it substitutes the
`{ok: false, message: "Empty upstream response"}` body, although the
upstream body was neither empty nor unparsable. -/
theorem claim_C6_counterexample :
    (CompareRoute.POST
        (JsVal.obj [("reference_code", .str "a"), ("submission_code", .str "b")])
        (fun _ => ⟨200, some .null⟩)).1 =
      ⟨200, CompareRoute.emptyUpstreamBody⟩ ∧
    CompareRoute.emptyUpstreamBody ≠ .null :=
  ⟨rfl, fun h => JsVal.noConfusion h⟩

/-- C6 (amended): whenever the single-compare proxy contacts the upstream
service, a non-2xx upstream answer is forwarded with the same status and a
`{ok, message, details}` body whose message is the upstream body's string
`message` field when present and `"Upstream error (<status>)"` otherwise,
while a 2xx answer is forwarded unchanged — the
`{ok: false, message: "Empty upstream response"}` substitute appearing
exactly when the upstream body is empty, unparsable, or the JSON literal
`null`. -/
theorem claim_C6 (body : JsVal)
    (upstream : CompareRoute.SentPayload → UpstreamResponse)
    (sent : CompareRoute.SentPayload)
    (hsent : (CompareRoute.POST body upstream).2 = some sent) :
    (fetchOk (upstream sent).status = false →
       (CompareRoute.POST body upstream).1.status = (upstream sent).status ∧
       (CompareRoute.POST body upstream).1.body =
         .obj [("ok", .bool false),
               ("message", .str (upstreamErrorMessage (upstream sent).body
                  (upstream sent).status)),
               ("details", ((upstream sent).body).getD .null)] ∧
       (∀ m, ((upstream sent).body).bind (fun j => j.getField "message") =
           some (.str m) →
         upstreamErrorMessage (upstream sent).body (upstream sent).status = m) ∧
       ((∀ m, ((upstream sent).body).bind (fun j => j.getField "message") ≠
           some (.str m)) →
         upstreamErrorMessage (upstream sent).body (upstream sent).status =
           "Upstream error (" ++ natDecStr (upstream sent).status ++ ")")) ∧
    (fetchOk (upstream sent).status = true →
       (∀ j, (upstream sent).body = some j → j ≠ .null →
          (CompareRoute.POST body upstream).1 = ⟨200, j⟩) ∧
       (((upstream sent).body = none ∨ (upstream sent).body = some .null) →
          (CompareRoute.POST body upstream).1 =
            ⟨200, CompareRoute.emptyUpstreamBody⟩)) := by
  by_cases hcond : jsTrim (strFieldOr body "reference_code" "") = "" ∨
      jsTrim (strFieldOr body "submission_code" "") = ""
  · exfalso
    simp only [CompareRoute.POST] at hsent
    rw [if_pos hcond] at hsent
    exact absurd hsent (by simp)
  · have hs2 : sent = ⟨strFieldOr body "language" "python",
        strFieldOr body "reference_code" "",
        strFieldOr body "submission_code" ""⟩ := by
      simp only [CompareRoute.POST] at hsent
      rw [if_neg hcond] at hsent
      split at hsent <;>
        (simp only [Option.some.injEq] at hsent; exact hsent.symm)
    subst hs2
    simp only [CompareRoute.POST]
    rw [if_neg hcond]
    split
    · refine ⟨fun _ => ⟨rfl, rfl, fun m hm => ?_, fun hno => ?_⟩, fun htrue => ?_⟩
      · simp [upstreamErrorMessage, hm]
      · unfold upstreamErrorMessage
        cases hb : ((upstream _).body).bind (fun j => j.getField "message") with
        | none => rfl
        | some v => cases v <;> first | rfl | exact absurd hb (hno _)
      · rename_i hfalse
        rw [htrue] at hfalse
        exact absurd hfalse (by simp)
    · rename_i hnotfalse
      refine ⟨fun hfalse => absurd hfalse hnotfalse, fun _ => ⟨fun j hj hnull => ?_,
        fun hsub => ?_⟩⟩
      · rw [hj]
        cases j <;> first | exact absurd rfl hnull | rfl
      · rcases hsub with hb | hb <;> rw [hb]

/-- Witness for C6: a 404 upstream answer carrying a string message is
forwarded with status 404 and that message. -/
theorem claim_C6_witness :
    ((CompareRoute.POST
        (JsVal.obj [("reference_code", .str "a"), ("submission_code", .str "b")])
        (fun _ => ⟨404, some (.obj [("message", .str "nope")])⟩)).1.status =
      ((fun (_ : CompareRoute.SentPayload) =>
          (⟨404, some (.obj [("message", .str "nope")])⟩ : UpstreamResponse))
        ⟨"python", "a", "b"⟩).status ∧
     upstreamErrorMessage
        (((fun (_ : CompareRoute.SentPayload) =>
            (⟨404, some (.obj [("message", .str "nope")])⟩ : UpstreamResponse))
          ⟨"python", "a", "b"⟩).body)
        (((fun (_ : CompareRoute.SentPayload) =>
            (⟨404, some (.obj [("message", .str "nope")])⟩ : UpstreamResponse))
          ⟨"python", "a", "b"⟩).status) = "nope") :=
  ⟨((claim_C6
      (JsVal.obj [("reference_code", .str "a"), ("submission_code", .str "b")])
      (fun _ => ⟨404, some (.obj [("message", .str "nope")])⟩)
      ⟨"python", "a", "b"⟩ rfl).1 rfl).1,
   ((claim_C6
      (JsVal.obj [("reference_code", .str "a"), ("submission_code", .str "b")])
      (fun _ => ⟨404, some (.obj [("message", .str "nope")])⟩)
      ⟨"python", "a", "b"⟩ rfl).1 rfl).2.2.1 "nope" rfl⟩

theorem string_pos_length_iff (s : String) : 0 < s.length ↔ s ≠ "" := by
  cases s with
  | mk data =>
      cases data with
      | nil => simp [String.length]
      | cons c t =>
          simp only [String.length]
          constructor
          · intro _ h
            have : (String.mk (c :: t)).data = ("" : String).data := by rw [h]
            simp at this
          · intro _
            simp

theorem map_filter_eq_filterMap {α β : Type} (f : α → β) (g : α → Option β)
    (keep : β → Bool)
    (hfg : ∀ a, (if keep (f a) then some (f a) else none) = g a) :
    ∀ l : List α, (l.map f).filter keep = l.filterMap g := by
  intro l
  induction l with
  | nil => rfl
  | cons a t ih =>
      simp only [List.map_cons, List.filter_cons, List.filterMap_cons, ← hfg a]
      by_cases h : keep (f a)
      · simp [h, ih]
      · simp [h, ih]

theorem sanitizeSubmissions_eq_spec (input : Option JsVal) :
    BulkRoute.sanitizeSubmissions input = BulkRoute.sanitizeSubmissionsSpec input := by
  cases input with
  | none => rfl
  | some v =>
      cases v <;> try rfl
      case arr entries =>
        refine map_filter_eq_filterMap _ _ _ ?_ entries.enum
        intro ie
        cases hg : ie.2.getField "code" with
        | none =>
            simp only [hg]
            rfl
        | some v2 =>
            cases v2 <;> simp only [hg] <;> try rfl
            case str code =>
              by_cases hc : jsTrim code = ""
              · have hkf : decide (0 < (jsTrim code).length) = false := by
                  rw [hc]
                  rfl
                simp [hkf, hc]
              · have hpos : decide (0 < (jsTrim code).length) = true := by
                  simp only [decide_eq_true_eq]
                  exact (string_pos_length_iff _).mpr hc
                simp [hpos, hc]

/-- C4: the bulk proxy requires one or more code strings.
`sanitizeSubmissions` keeps exactly the entries whose `code` field is a
string with non-whitespace content (defaulting a missing or blank id of
the entry at position `index` to `submission-(index+1)` and trimming
present ids); the handler answers 400 `"reference_code is required"` when
the reference trims to empty, 400 `"At least one submission is required"`
when the sanitized list is empty, and contacts the upstream service only
otherwise. -/
theorem claim_C4 (body : JsVal)
    (upstream : BulkRoute.SentPayload → UpstreamResponse) :
    (∀ input, BulkRoute.sanitizeSubmissions input =
      BulkRoute.sanitizeSubmissionsSpec input) ∧
    (((BulkRoute.POST body upstream).1.status = 400 ∧
       (BulkRoute.POST body upstream).1.body = BulkRoute.refRequiredBody) ↔
      jsTrim (strFieldOr body "reference_code" "") = "") ∧
    (((BulkRoute.POST body upstream).1.status = 400 ∧
       (BulkRoute.POST body upstream).1.body = BulkRoute.subRequiredBody) ↔
      (jsTrim (strFieldOr body "reference_code" "") ≠ "" ∧
       BulkRoute.sanitizeSubmissions (body.getField "submissions") = [])) ∧
    ((BulkRoute.POST body upstream).2 = none ↔
      (jsTrim (strFieldOr body "reference_code" "") = "" ∨
       BulkRoute.sanitizeSubmissions (body.getField "submissions") = [])) := by
  refine ⟨sanitizeSubmissions_eq_spec, ?_⟩
  by_cases h1 : jsTrim (strFieldOr body "reference_code" "") = ""
  · have hpost : BulkRoute.POST body upstream =
        (⟨400, BulkRoute.refRequiredBody⟩, none) := by
      simp only [BulkRoute.POST]
      rw [if_pos h1]
    rw [hpost]
    refine ⟨⟨fun _ => h1, fun _ => ⟨rfl, rfl⟩⟩, ⟨fun hc => ?_, fun hc => ?_⟩,
      ⟨fun _ => Or.inl h1, fun _ => rfl⟩⟩
    · simp [BulkRoute.refRequiredBody, BulkRoute.subRequiredBody] at hc
    · exact absurd h1 hc.1
  · by_cases h2 : BulkRoute.sanitizeSubmissions (body.getField "submissions") = []
    · have hpost : BulkRoute.POST body upstream =
          (⟨400, BulkRoute.subRequiredBody⟩, none) := by
        simp only [BulkRoute.POST]
        rw [if_neg h1, if_pos h2]
      rw [hpost]
      refine ⟨⟨fun hc => ?_, fun hc => absurd hc h1⟩,
        ⟨fun _ => ⟨h1, h2⟩, fun _ => ⟨rfl, rfl⟩⟩,
        ⟨fun _ => Or.inr h2, fun _ => rfl⟩⟩
      simp [BulkRoute.refRequiredBody, BulkRoute.subRequiredBody] at hc
    · have hfacts : ((BulkRoute.POST body upstream).1.status = 400 ∧
          ((BulkRoute.POST body upstream).1.body = BulkRoute.refRequiredBody ∨
           (BulkRoute.POST body upstream).1.body = BulkRoute.subRequiredBody) →
            False) ∧
          (BulkRoute.POST body upstream).2 ≠ none := by
        simp only [BulkRoute.POST]
        rw [if_neg h1, if_neg h2]
        split
        · refine ⟨fun hc => ?_, by simp⟩
          rcases hc.2 with hb | hb <;>
            simp [BulkRoute.refRequiredBody, BulkRoute.subRequiredBody] at hb
        · split
          · refine ⟨fun hc => by simp at hc, by simp⟩
          · refine ⟨fun hc => by simp at hc, by simp⟩
      refine ⟨⟨fun hc => absurd ⟨hc.1, Or.inl hc.2⟩ hfacts.1, fun hc => absurd hc h1⟩,
        ⟨fun hc => absurd ⟨hc.1, Or.inr hc.2⟩ hfacts.1, fun hc => absurd hc.2 h2⟩,
        ⟨fun hc => absurd hc hfacts.2, fun hc => ?_⟩⟩
      rcases hc with hc | hc
      · exact absurd hc h1
      · exact absurd hc h2

/-- Witness for C4: a body with a blank reference and one valid submission
is rejected with the reference message; dropping, defaulting and trimming
of submissions behave as specified on a concrete array. -/
theorem claim_C4_witness :
    (((BulkRoute.POST (JsVal.obj [("reference_code", .str " ")])
        (fun _ => ⟨200, none⟩)).1.status = 400 ∧
      (BulkRoute.POST (JsVal.obj [("reference_code", .str " ")])
        (fun _ => ⟨200, none⟩)).1.body = BulkRoute.refRequiredBody)) ∧
    BulkRoute.sanitizeSubmissions
        (some (.arr [.obj [("code", .str "  ")],
                     .obj [("id", .str " x "), ("code", .str "print(1)")],
                     .obj [("code", .str "print(2)")]])) =
      BulkRoute.sanitizeSubmissionsSpec
        (some (.arr [.obj [("code", .str "  ")],
                     .obj [("id", .str " x "), ("code", .str "print(1)")],
                     .obj [("code", .str "print(2)")]])) :=
  ⟨(claim_C4 (JsVal.obj [("reference_code", .str " ")])
      (fun _ => ⟨200, none⟩)).2.1.mpr rfl,
   (claim_C4 (JsVal.obj [("reference_code", .str " ")])
      (fun _ => ⟨200, none⟩)).1 _⟩

/-- C5: every failing outcome of a `compareCodes` or `bulkCompare` call —
unparsable response JSON, non-2xx status, or falsy `ok` field — makes the
function throw a single `Error` (carrying the body's message when a truthy
one is present and a fixed fallback string otherwise), and `handleAnalyze`
catches every such error, stores exactly that one string in
`errorMessage`, and leaves the analysis and bulk results unchanged. -/
theorem claim_C5 :
    (∀ (payload : CompareCodesPayload)
        (response : FetchResponse CompareCodesResponse),
       (response.body = none →
          compareCodes payload response =
            .error "Unable to parse analysis response") ∧
       (∀ data, response.body = some data →
          (response.ok = false ∨ okFieldTruthy data.ok = false) →
          compareCodes payload response =
            .error (errorMessageOf data.message "Analysis failed")) ∧
       ((∀ d, compareCodes payload response ≠ .ok d) ↔
          (response.body = none ∨ response.ok = false ∨
           ∃ data, response.body = some data ∧ okFieldTruthy data.ok = false))) ∧
    (∀ response : FetchResponse BulkCompareResponse,
       (response.body = none →
          bulkAfterFetch response = .error "Unable to parse bulk analysis response") ∧
       (∀ data, response.body = some data →
          (response.ok = false ∨ okFieldTruthy data.ok = false) →
          bulkAfterFetch response =
            .error (errorMessageOf data.message "Bulk analysis failed")) ∧
       ((∀ d, bulkAfterFetch response ≠ .ok d) ↔
          (response.body = none ∨ response.ok = false ∨
           ∃ data, response.body = some data ∧ okFieldTruthy data.ok = false))) ∧
    (∀ (st : ScreenState) (codeA codeB : String)
        (files : List (String × String))
        (singleResp : FetchResponse CompareCodesResponse)
        (bulkResp : FetchResponse BulkCompareResponse) (e : String),
       (jsTrim codeA ≠ "" → jsTrim codeB ≠ "" →
          compareCodes ⟨"python", codeA, codeB⟩ singleResp = .error e →
          (handleAnalyze st .single codeA codeB files singleResp
              bulkResp).errorMessage = some e ∧
          (handleAnalyze st .single codeA codeB files singleResp
              bulkResp).analysis = st.analysis ∧
          (handleAnalyze st .single codeA codeB files singleResp
              bulkResp).bulkResults = st.bulkResults) ∧
       (jsTrim codeA ≠ "" → buildBulkSubmissionPayload files ≠ [] →
          bulkCompare ⟨"python", codeA, buildBulkSubmissionPayload files⟩
              bulkResp = .error e →
          (handleAnalyze st .bulk codeA codeB files singleResp
              bulkResp).errorMessage = some e ∧
          (handleAnalyze st .bulk codeA codeB files singleResp
              bulkResp).analysis = st.analysis ∧
          (handleAnalyze st .bulk codeA codeB files singleResp
              bulkResp).bulkResults = st.bulkResults)) := by
  refine ⟨fun payload response => ⟨?_, ?_, ?_⟩,
    fun response => ⟨?_, ?_, ?_⟩, fun st codeA codeB files singleResp bulkResp e =>
      ⟨fun hA hB herr => ?_, fun hA hsubs herr => ?_⟩⟩
  · intro hb
    unfold compareCodes
    rw [hb]
  · intro data hb hcond
    unfold compareCodes
    rw [hb]
    simp only
    rw [if_pos hcond]
  · unfold compareCodes
    cases hb : response.body with
    | none => simp
    | some data =>
        simp only
        split
        · rename_i hcond
          constructor
          · intro _
            rcases hcond with hok | htr
            · exact Or.inr (Or.inl hok)
            · exact Or.inr (Or.inr ⟨data, rfl, htr⟩)
          · intro _ d h
            exact Except.noConfusion h
        · rename_i hcond
          push_neg at hcond
          constructor
          · intro hne
            exact absurd rfl (hne data)
          · rintro (h | h | ⟨data2, hd2, htr⟩) _ _
            · exact Option.noConfusion h
            · exact absurd h (by simp [hcond.1])
            · rw [Option.some.injEq] at hd2
              rw [← hd2] at htr
              exact absurd htr (by simp [hcond.2])
  · intro hb
    unfold bulkAfterFetch
    rw [hb]
  · intro data hb hcond
    unfold bulkAfterFetch
    rw [hb]
    simp only
    rw [if_pos hcond]
  · unfold bulkAfterFetch
    cases hb : response.body with
    | none => simp
    | some data =>
        simp only
        split
        · rename_i hcond
          constructor
          · intro _
            rcases hcond with hok | htr
            · exact Or.inr (Or.inl hok)
            · exact Or.inr (Or.inr ⟨data, rfl, htr⟩)
          · intro _ d h
            exact Except.noConfusion h
        · rename_i hcond
          push_neg at hcond
          constructor
          · intro hne
            exact absurd rfl (hne data)
          · rintro (h | h | ⟨data2, hd2, htr⟩) _ _
            · exact Option.noConfusion h
            · exact absurd h (by simp [hcond.1])
            · rw [Option.some.injEq] at hd2
              rw [← hd2] at htr
              exact absurd htr (by simp [hcond.2])
  · unfold handleAnalyze
    rw [if_neg hA]
    simp only
    rw [if_neg hB, herr]
    exact ⟨rfl, rfl, rfl⟩
  · unfold handleAnalyze
    rw [if_neg hA]
    simp only
    rw [if_neg hsubs, herr]
    exact ⟨rfl, rfl, rfl⟩

/-- Witness for C5: a non-2xx single-compare outcome with a truthy string
message makes `handleAnalyze` store exactly that message and keep the
previous results. -/
theorem claim_C5_witness :
    (handleAnalyze ⟨none, none, none, true, .plagiarism, none⟩ .single "a" "b" []
        ⟨false, some (CompareCodesResponse.mk none none none none none none none
          none none none none none none none none none
          (some (.str "boom")))⟩
        ⟨true, none⟩).errorMessage = some "boom" ∧
    (handleAnalyze ⟨none, none, none, true, .plagiarism, none⟩ .single "a" "b" []
        ⟨false, some (CompareCodesResponse.mk none none none none none none none
          none none none none none none none none none
          (some (.str "boom")))⟩
        ⟨true, none⟩).analysis =
      (ScreenState.mk none none none true .plagiarism none).analysis ∧
    (handleAnalyze ⟨none, none, none, true, .plagiarism, none⟩ .single "a" "b" []
        ⟨false, some (CompareCodesResponse.mk none none none none none none none
          none none none none none none none none none
          (some (.str "boom")))⟩
        ⟨true, none⟩).bulkResults =
      (ScreenState.mk none none none true .plagiarism none).bulkResults :=
  claim_C5.2.2 ⟨none, none, none, true, .plagiarism, none⟩ "a" "b" []
    ⟨false, some (CompareCodesResponse.mk none none none none none none none
      none none none none none none none none none (some (.str "boom")))⟩
    ⟨true, none⟩ "boom"
    |>.1 (by decide) (by decide) rfl

theorem reserveUniqueSubmissionId_spec (baseId : String) (registry : List String) :
    (reserveUniqueSubmissionId baseId registry).1 ∉ registry ∧
    (reserveUniqueSubmissionId baseId registry).2 =
      (reserveUniqueSubmissionId baseId registry).1 :: registry := by
  unfold reserveUniqueSubmissionId
  by_cases hc : (if baseId = "" then "Submission" else baseId) ∈ registry
  · rw [if_pos hc]
    exact ⟨Nat.find_spec (exists_unused_numbered_id _ registry), rfl⟩
  · rw [if_neg hc]
    exact ⟨hc, rfl⟩

theorem buildBulkPayloadGo_spec :
    ∀ (fm : List (String × String)) (registry : List String),
      ((buildBulkPayloadGo fm registry).map (fun e => e.id)).Nodup ∧
      ∀ i ∈ (buildBulkPayloadGo fm registry).map (fun e => e.id), i ∉ registry := by
  intro fm
  induction fm with
  | nil => intro registry; simp [buildBulkPayloadGo]
  | cons fc rest ih =>
      intro registry
      obtain ⟨f, c⟩ := fc
      simp only [buildBulkPayloadGo]
      by_cases hc : jsTrim c = ""
      · rw [if_pos hc]
        exact ih registry
      · rw [if_neg hc]
        have hres := reserveUniqueSubmissionId_spec
          (deriveSubmissionIdFromFilename f) registry
        rw [hres.2]
        obtain ⟨hih1, hih2⟩ :=
          ih ((reserveUniqueSubmissionId (deriveSubmissionIdFromFilename f)
            registry).1 :: registry)
        constructor
        · simp only [List.map_cons, List.nodup_cons]
          exact ⟨fun hmem => (hih2 _ hmem) (List.mem_cons_self _ _), hih1⟩
        · intro i hi
          simp only [List.map_cons, List.mem_cons] at hi
          rcases hi with rfl | hi
          · exact hres.1
          · exact fun hmem => (hih2 i hi) (List.mem_cons_of_mem _ hmem)

theorem buildBulkPayloadGo_codes :
    ∀ (fm : List (String × String)) (registry : List String),
      (buildBulkPayloadGo fm registry).map (fun e => e.code) =
        (fm.filter (fun fc => jsTrim fc.2 ≠ "")).map (fun fc => fc.2) := by
  intro fm
  induction fm with
  | nil => intro registry; simp [buildBulkPayloadGo]
  | cons fc rest ih =>
      intro registry
      obtain ⟨f, c⟩ := fc
      simp only [buildBulkPayloadGo, List.filter_cons]
      by_cases hc : jsTrim c = ""
      · have hdec : (decide (jsTrim c ≠ "")) = false := by simp [hc]
        rw [if_pos hc, hdec]
        simp only [Bool.false_eq_true, if_false]
        exact ih registry
      · have hdec : (decide (jsTrim c ≠ "")) = true := by simp [hc]
        rw [if_neg hc, hdec]
        simp only [if_true, List.map_cons]
        rw [ih]

/-- C9: `buildBulkSubmissionPayload` yields pairwise-distinct submission
ids; whitespace-only files are dropped (the payload codes are exactly the
kept files' codes in order), and a conflicting normalized id receives
`"N/<base>"` for the smallest positive `N` not yet reserved. -/
theorem claim_C9 (fileMap : List (String × String)) :
    ((buildBulkSubmissionPayload fileMap).map (fun e => e.id)).Nodup ∧
    (buildBulkSubmissionPayload fileMap).map (fun e => e.code) =
      (fileMap.filter (fun fc => jsTrim fc.2 ≠ "")).map (fun fc => fc.2) ∧
    (∀ (baseId : String) (registry : List String),
       (reserveUniqueSubmissionId baseId registry).1 ∉ registry ∧
       (reserveUniqueSubmissionId baseId registry).2 =
         (reserveUniqueSubmissionId baseId registry).1 :: registry ∧
       ((if baseId = "" then "Submission" else baseId) ∈ registry →
         ∃ n, (reserveUniqueSubmissionId baseId registry).1 =
             mkNumberedId (n + 1) (if baseId = "" then "Submission" else baseId) ∧
           mkNumberedId (n + 1)
             (if baseId = "" then "Submission" else baseId) ∉ registry ∧
           ∀ m, m < n →
             mkNumberedId (m + 1)
               (if baseId = "" then "Submission" else baseId) ∈ registry)) := by
  refine ⟨(buildBulkPayloadGo_spec fileMap []).1,
    buildBulkPayloadGo_codes fileMap [], fun baseId registry => ?_⟩
  refine ⟨(reserveUniqueSubmissionId_spec baseId registry).1,
    (reserveUniqueSubmissionId_spec baseId registry).2, fun hc => ?_⟩
  refine ⟨Nat.find (exists_unused_numbered_id
      (if baseId = "" then "Submission" else baseId) registry), ?_, ?_, ?_⟩
  · unfold reserveUniqueSubmissionId
    rw [if_pos hc]
  · exact Nat.find_spec (exists_unused_numbered_id
      (if baseId = "" then "Submission" else baseId) registry)
  · intro m hm
    have := Nat.find_min (exists_unused_numbered_id
      (if baseId = "" then "Submission" else baseId) registry) hm
    exact not_not.mp this

/-- Witness for C9: with `"a"` and `"1/a"` already reserved, the next
`"a"` becomes `"2/a"` — the smallest free positive counter is 2 — and a
duplicate filename pair gets distinct ids. -/
theorem claim_C9_witness :
    (∃ n, (reserveUniqueSubmissionId "a" ["a", "1/a"]).1 =
        mkNumberedId (n + 1) (if ("a" : String) = "" then "Submission" else "a") ∧
      mkNumberedId (n + 1)
        (if ("a" : String) = "" then "Submission" else "a") ∉ ["a", "1/a"] ∧
      ∀ m, m < n →
        mkNumberedId (m + 1)
          (if ("a" : String) = "" then "Submission" else "a") ∈ ["a", "1/a"]) ∧
    ((buildBulkSubmissionPayload
        [("f.py", "print(1)"), ("f.py", "print(2)")]).map (fun e => e.id)).Nodup :=
  ⟨((claim_C9 []).2.2 "a" ["a", "1/a"]).2.2 (by decide),
   (claim_C9 [("f.py", "print(1)"), ("f.py", "print(2)")]).1⟩

theorem range'_append_nat (s m n : Nat) :
    List.range' s m ++ List.range' (s + m) n = List.range' s (m + n) := by
  have h := List.range'_append s m n 1
  simp only [one_mul] at h
  rw [h, Nat.add_comm n m]

theorem getD_append_cons_self (A : List PositionedNode) (e : PositionedNode)
    (B : List PositionedNode) : (A ++ e :: B).getD A.length default = e := by
  rw [List.getD_append_right A (e :: B) default A.length le_rfl]
  simp

theorem getD_append_cons_gt (A : List PositionedNode) (e : PositionedNode)
    (B : List PositionedNode) (j : Nat) (h : A.length < j) :
    (A ++ e :: B).getD j default = B.getD (j - A.length - 1) default := by
  rw [List.getD_append_right A (e :: B) default j (Nat.le_of_lt h)]
  have : j - A.length = (j - A.length - 1) + 1 := by omega
  rw [this]
  rfl

theorem getD_middle_gt_eq (A B : List PositionedNode) (e e2 : PositionedNode)
    (j : Nat) (h : A.length < j) :
    (A ++ e :: B).getD j default = (A ++ e2 :: B).getD j default := by
  rw [getD_append_cons_gt A e B j h, getD_append_cons_gt A e2 B j h]

theorem set_append_cons (A : List PositionedNode) (e e2 : PositionedNode)
    (B : List PositionedNode) : (A ++ e :: B).set A.length e2 = A ++ e2 :: B := by
  induction A with
  | nil => rfl
  | cons a t ih => simp [List.set, ih]

theorem setPosX_append_cons (A : List PositionedNode) (e : PositionedNode)
    (B : List PositionedNode) (v : ℚ) :
    setPosX (A ++ e :: B) A.length v = A ++ { e with x := v } :: B := by
  unfold setPosX
  rw [getD_append_cons_self, set_append_cons]

theorem childXs_append (A B : List PositionedNode) (i : Nat) :
    childXs (A ++ B) i = childXs A i ++ childXs B i := by
  simp [childXs, List.filter_append]

theorem childXs_eq_nil (ps : List PositionedNode) (i : Nat)
    (h : ∀ p ∈ ps, ¬(p.parentId = some i)) : childXs ps i = [] := by
  unfold childXs
  rw [List.filter_eq_nil_iff.mpr]
  · rfl
  · intro p hp
    simpa using h p hp

theorem childXs_cons_neg (e : PositionedNode) (B : List PositionedNode) (i : Nat)
    (he : ¬(e.parentId = some i)) : childXs (e :: B) i = childXs B i := by
  simp [childXs, List.filter_cons, he]

theorem childXs_cons_pos (e : PositionedNode) (B : List PositionedNode) (i : Nat)
    (he : e.parentId = some i) : childXs (e :: B) i = e.x :: childXs B i := by
  simp [childXs, List.filter_cons, he]

theorem isLeafIdx_congr (ps qs : List PositionedNode) (i : Nat)
    (h : ps.map (fun p => p.parentId) = qs.map (fun p => p.parentId)) :
    isLeafIdx ps i = isLeafIdx qs i := by
  have key : ∀ (l : List PositionedNode) (f : Option Nat → Bool),
      l.all (fun p => f p.parentId) = (l.map (fun p => p.parentId)).all f := by
    intro l f
    induction l with
    | nil => rfl
    | cons a t ih => simp [List.all_cons, ih]
  unfold isLeafIdx
  rw [key ps (fun o => decide (o ≠ some i)), key qs (fun o => decide (o ≠ some i)), h]

theorem isLeafIdx_append (ps new : List PositionedNode) (i : Nat)
    (h : ∀ p ∈ new, ¬(p.parentId = some i)) :
    isLeafIdx (ps ++ new) i = isLeafIdx ps i := by
  unfold isLeafIdx
  rw [List.all_append]
  have : new.all (fun p => p.parentId ≠ some i) = true :=
    List.all_eq_true.mpr (fun p hp => by simpa using h p hp)
  rw [this, Bool.and_true]

theorem isLeafIdx_false (ps : List PositionedNode) (q : PositionedNode) (i : Nat)
    (hq : q ∈ ps) (h : q.parentId = some i) : isLeafIdx ps i = false := by
  unfold isLeafIdx
  rw [Bool.eq_false_iff]
  intro hall
  have := List.all_eq_true.mp hall q hq
  simp [h] at this

theorem isLeafIdx_true (ps : List PositionedNode) (i : Nat)
    (h : ∀ p ∈ ps, ¬(p.parentId = some i)) : isLeafIdx ps i = true := by
  unfold isLeafIdx
  exact List.all_eq_true.mpr (fun p hp => by simpa using h p hp)

theorem szNode_pos (n : ASTNode) : 1 ≤ szNode n := by
  cases n with
  | mk ty v children => simp [szNode]

theorem ParentsClosed_extend (ps new : List PositionedNode) (pid : Option Nat)
    (hPC : ParentsClosed ps) (hPid : PidOk ps pid)
    (hmem : ∀ p ∈ new, p.id < (ps ++ new).length ∧
      (p.parentId = pid ∨ ∃ k, ps.length ≤ k ∧ k < p.id ∧ p.parentId = some k)) :
    ParentsClosed (ps ++ new) := by
  intro p hp k hk
  rcases List.mem_append.mp hp with h1 | h1
  · have := hPC p h1 k hk
    rw [List.length_append]
    omega
  · rcases (hmem p h1).2 with hp1 | ⟨k2, hk2a, hk2b, hk2c⟩
    · rcases hPid with rfl | ⟨q, hq, hqlt⟩
      · rw [hp1] at hk
        exact Option.noConfusion hk
      · rw [hq] at hp1
        rw [hp1] at hk
        injection hk with hk2
        rw [List.length_append]
        omega
    · rw [hk2c] at hk
      injection hk with hk3
      have := (hmem p h1).1
      omega

theorem visit_leaf_spec (ty : String) (v : Option String) (d : Nat)
    (pid : Option Nat) (ps : List PositionedNode) (c : Nat)
    (hPC : ParentsClosed ps) (hPid : PidOk ps pid) :
    SpecF pid ps c [.mk ty v []]
      (visit (.mk ty v []) d pid ps c).1
      (visit (.mk ty v []) d pid ps c).2.1
      [(visit (.mk ty v []) d pid ps c).2.2] := by
  have hnopar : ∀ p ∈ ps ++ [(⟨ps.length, ty, v, d, (c : ℚ) * HORIZONTAL_GAP,
      (d : ℚ) * VERTICAL_GAP, pid⟩ : PositionedNode)],
      ¬(p.parentId = some ps.length) := by
    intro p hp hsome
    rcases List.mem_append.mp hp with h1 | h1
    · have := hPC p h1 ps.length hsome
      omega
    · simp at h1
      rw [h1] at hsome
      simp only at hsome
      rcases hPid with rfl | ⟨q, hq, hqlt⟩
      · exact Option.noConfusion hsome
      · rw [hq] at hsome
        injection hsome with he
        omega
  have hv : visit (.mk ty v []) d pid ps c =
      (ps ++ [⟨ps.length, ty, v, d, (c : ℚ) * HORIZONTAL_GAP,
        (d : ℚ) * VERTICAL_GAP, pid⟩], c + 1, ps.length) := by
    simp only [visit]
    rw [setPosX_append_cons]
  rw [hv]
  refine ⟨[⟨ps.length, ty, v, d, (c : ℚ) * HORIZONTAL_GAP,
    (d : ℚ) * VERTICAL_GAP, pid⟩], rfl, ?_, rfl, ?_, ?_, ?_, ?_, ?_⟩
  · simp [leafCountList, leafCount]
  · intro a ha
    simp only [List.mem_singleton] at ha
    subst ha
    simp [List.length_append]
  · have hg := getD_append_cons_self ps
      (⟨ps.length, ty, v, d, (c : ℚ) * HORIZONTAL_GAP,
        (d : ℚ) * VERTICAL_GAP, pid⟩ : PositionedNode) []
    simp only [List.map_cons, List.map_nil]
    rw [show (ps ++ [(⟨ps.length, ty, v, d, (c : ℚ) * HORIZONTAL_GAP,
      (d : ℚ) * VERTICAL_GAP, pid⟩ : PositionedNode)]) =
      ps ++ (⟨ps.length, ty, v, d, (c : ℚ) * HORIZONTAL_GAP,
      (d : ℚ) * VERTICAL_GAP, pid⟩ : PositionedNode) :: [] from rfl, hg]
    simp [List.filter]
  · intro p hp
    simp only [List.mem_singleton] at hp
    subst hp
    refine ⟨le_rfl, by simp [List.length_append], rfl, Or.inl rfl⟩
  · intro i h1 h2 hne
    simp only [List.length_append, List.length_singleton] at h2
    have hi : i = ps.length := by omega
    subst hi
    exact absurd (childXs_eq_nil _ _ hnopar) hne
  · have hleafidx : isLeafIdx (ps ++ [(⟨ps.length, ty, v, d,
        (c : ℚ) * HORIZONTAL_GAP, (d : ℚ) * VERTICAL_GAP,
        pid⟩ : PositionedNode)]) ps.length = true :=
      isLeafIdx_true _ _ hnopar
    simp only [List.filter, hleafidx]
    simp [List.range', leafCountList, leafCount]

theorem visit_internal_spec (ty : String) (v : Option String) (ch : ASTNode)
    (cs : List ASTNode) (d : Nat) (pid : Option Nat)
    (ps : List PositionedNode) (c : Nat)
    (hPC : ParentsClosed ps) (hPid : PidOk ps pid)
    (hF : SpecF (some ps.length)
      (ps ++ [⟨ps.length, ty, v, d, 0, (d : ℚ) * VERTICAL_GAP, pid⟩]) c
      (ch :: cs)
      (visitForest (ch :: cs) (d + 1) (some ps.length)
        (ps ++ [⟨ps.length, ty, v, d, 0, (d : ℚ) * VERTICAL_GAP, pid⟩]) c).1
      (visitForest (ch :: cs) (d + 1) (some ps.length)
        (ps ++ [⟨ps.length, ty, v, d, 0, (d : ℚ) * VERTICAL_GAP, pid⟩]) c).2.1
      (visitForest (ch :: cs) (d + 1) (some ps.length)
        (ps ++ [⟨ps.length, ty, v, d, 0, (d : ℚ) * VERTICAL_GAP, pid⟩]) c).2.2) :
    SpecF pid ps c [.mk ty v (ch :: cs)]
      (visit (.mk ty v (ch :: cs)) d pid ps c).1
      (visit (.mk ty v (ch :: cs)) d pid ps c).2.1
      [(visit (.mk ty v (ch :: cs)) d pid ps c).2.2] := by
  obtain ⟨newC, hA, hc2, hlen, hidsR, hfiltC, hmemC, hmeanC, hleafC⟩ := hF
  have hpid_ne : ∀ i, ps.length ≤ i → ¬(pid = some i) := by
    intro i hi hc
    rcases hPid with rfl | ⟨q, hq, hqlt⟩
    · exact Option.noConfusion hc
    · rw [hq] at hc
      injection hc with he
      omega
  have hAc : (visitForest (ch :: cs) (d + 1) (some ps.length)
      (ps ++ [⟨ps.length, ty, v, d, 0, (d : ℚ) * VERTICAL_GAP, pid⟩]) c).1 =
      ps ++ ⟨ps.length, ty, v, d, 0, (d : ℚ) * VERTICAL_GAP, pid⟩ :: newC := by
    rw [hA]
    simp
  have hlenMid : (ps ++ [(⟨ps.length, ty, v, d, 0, (d : ℚ) * VERTICAL_GAP,
      pid⟩ : PositionedNode)]).length = ps.length + 1 := by
    simp
  have hv : visit (.mk ty v (ch :: cs)) d pid ps c =
      (setPosX
        (visitForest (ch :: cs) (d + 1) (some ps.length)
          (ps ++ [⟨ps.length, ty, v, d, 0, (d : ℚ) * VERTICAL_GAP, pid⟩]) c).1
        ps.length
        (((visitForest (ch :: cs) (d + 1) (some ps.length)
            (ps ++ [⟨ps.length, ty, v, d, 0, (d : ℚ) * VERTICAL_GAP, pid⟩])
            c).2.2.map (fun cid =>
              ((visitForest (ch :: cs) (d + 1) (some ps.length)
                (ps ++ [⟨ps.length, ty, v, d, 0, (d : ℚ) * VERTICAL_GAP, pid⟩])
                c).1.getD cid default).x)).sum /
          (((visitForest (ch :: cs) (d + 1) (some ps.length)
            (ps ++ [⟨ps.length, ty, v, d, 0, (d : ℚ) * VERTICAL_GAP, pid⟩])
            c).2.2.length : ℚ))),
       (visitForest (ch :: cs) (d + 1) (some ps.length)
         (ps ++ [⟨ps.length, ty, v, d, 0, (d : ℚ) * VERTICAL_GAP, pid⟩]) c).2.1,
       ps.length) := by
    simp only [visit]
  set rids := (visitForest (ch :: cs) (d + 1) (some ps.length)
    (ps ++ [⟨ps.length, ty, v, d, 0, (d : ℚ) * VERTICAL_GAP, pid⟩]) c).2.2
    with hrids
  set psA := (visitForest (ch :: cs) (d + 1) (some ps.length)
    (ps ++ [⟨ps.length, ty, v, d, 0, (d : ℚ) * VERTICAL_GAP, pid⟩]) c).1
    with hpsA
  set avg := ((rids.map (fun cid => (psA.getD cid default).x)).sum /
    ((rids.length : ℚ))) with havg
  have hset : setPosX psA ps.length avg =
      ps ++ ⟨ps.length, ty, v, d, avg, (d : ℚ) * VERTICAL_GAP, pid⟩ :: newC := by
    rw [hAc]
    exact setPosX_append_cons ps _ newC avg
  have hlenA : psA.length = ps.length + 1 + newC.length := by
    rw [hAc]
    simp only [List.length_append, List.length_cons]
    omega
  have hlen2 : (ps ++ (⟨ps.length, ty, v, d, avg, (d : ℚ) * VERTICAL_GAP,
      pid⟩ : PositionedNode) :: newC).length = ps.length + 1 + newC.length := by
    simp only [List.length_append, List.length_cons]
    omega
  have hnewC_parent : ∀ p ∈ newC, ¬(p.parentId = pid) := by
    intro p hp hpar
    rcases (hmemC p hp).2.2.2 with h1 | ⟨k, hk1, hk2, hk3⟩
    · rw [hpar] at h1
      exact hpid_ne ps.length le_rfl h1
    · rw [hpar] at hk3
      rw [hlenMid] at hk1
      exact hpid_ne k (by omega) hk3
  rw [hv]
  refine ⟨⟨ps.length, ty, v, d, avg, (d : ℚ) * VERTICAL_GAP, pid⟩ :: newC,
    hset, ?_, rfl, ?_, ?_, ?_, ?_, ?_⟩
  · rw [hc2]
    simp [leafCountList, leafCount]
  · intro a ha
    simp only [List.mem_singleton] at ha
    subst ha
    rw [hset, hlen2]
    omega
  · rw [hset]
    have hgd : (ps ++ (⟨ps.length, ty, v, d, avg, (d : ℚ) * VERTICAL_GAP,
        pid⟩ : PositionedNode) :: newC).getD ps.length default =
        ⟨ps.length, ty, v, d, avg, (d : ℚ) * VERTICAL_GAP, pid⟩ :=
      getD_append_cons_self ps _ newC
    simp only [List.map_cons, List.map_nil, hgd]
    rw [List.filter_cons]
    have hpredtrue : (decide ((⟨ps.length, ty, v, d, avg, (d : ℚ) * VERTICAL_GAP,
        pid⟩ : PositionedNode).parentId = pid)) = true := by simp
    rw [hpredtrue]
    simp only [if_true]
    congr 1
    rw [List.filter_eq_nil_iff.mpr]
    intro p hp
    simpa using hnewC_parent p hp
  · intro p hp
    rcases List.mem_cons.mp hp with rfl | hp2
    · refine ⟨le_rfl, ?_, rfl, Or.inl rfl⟩
      rw [hset, hlen2]
      show ps.length < ps.length + 1 + newC.length
      omega
    · obtain ⟨hid1, hid2, hy, hpar⟩ := hmemC p hp2
      rw [hlenMid] at hid1
      rw [hlenA] at hid2
      refine ⟨by omega, ?_, hy, ?_⟩
      · rw [hset, hlen2]
        omega
      · rcases hpar with h1 | ⟨k, hk1, hk2, hk3⟩
        · exact Or.inr ⟨ps.length, le_rfl, by omega, h1⟩
        · rw [hlenMid] at hk1
          exact Or.inr ⟨k, by omega, hk2, hk3⟩
  · intro i h1 h2 hne
    rw [hset] at h2 ⊢
    rw [hset] at hne
    by_cases hi : i = ps.length
    · subst hi
      have hxsplit : childXs (ps ++ (⟨ps.length, ty, v, d, avg,
          (d : ℚ) * VERTICAL_GAP, pid⟩ : PositionedNode) :: newC) ps.length =
          rids.map (fun a => (psA.getD a default).x) := by
        rw [childXs_append, childXs_cons_neg _ _ _ (by
          simpa using fun he => hpid_ne ps.length le_rfl he)]
        rw [childXs_eq_nil ps ps.length (by
          intro p hp hpar
          have := hPC p hp ps.length hpar
          omega)]
        rw [List.nil_append]
        show (newC.filter (fun p => p.parentId = some ps.length)).map
          (fun p => p.x) = _
        rw [hfiltC]
        rw [List.map_map]
        rfl
      rw [hxsplit]
      have hgd : (ps ++ (⟨ps.length, ty, v, d, avg, (d : ℚ) * VERTICAL_GAP,
          pid⟩ : PositionedNode) :: newC).getD ps.length default =
          ⟨ps.length, ty, v, d, avg, (d : ℚ) * VERTICAL_GAP, pid⟩ :=
        getD_append_cons_self ps _ newC
      rw [hgd]
      show avg = _
      rw [havg]
      congr 1
      rw [List.length_map]
    · have hgt : ps.length < i := by omega
      have hxeq : childXs (ps ++ (⟨ps.length, ty, v, d, avg,
          (d : ℚ) * VERTICAL_GAP, pid⟩ : PositionedNode) :: newC) i =
          childXs psA i := by
        rw [hAc, childXs_append, childXs_append,
          childXs_cons_neg _ _ _ (by
            simpa using fun he => hpid_ne i (by omega) he),
          childXs_cons_neg _ _ _ (by
            simpa using fun he => hpid_ne i (by omega) he)]
      have hgeq : (ps ++ (⟨ps.length, ty, v, d, avg, (d : ℚ) * VERTICAL_GAP,
          pid⟩ : PositionedNode) :: newC).getD i default =
          psA.getD i default := by
        rw [hAc]
        exact (getD_middle_gt_eq ps newC _ _ i hgt).symm
      rw [hxeq, hgeq]
      refine hmeanC i ?_ ?_ ?_
      · rw [hlenMid]
        omega
      · rw [hlenA]
        rw [hlen2] at h2
        omega
      · rw [← hxeq]
        exact hne
  · have hids_ne : rids ≠ [] := by
      intro hnil
      rw [hnil] at hlen
      simp at hlen
    have hfilt_ne : newC.filter (fun p => p.parentId = some ps.length) ≠ [] := by
      rw [hfiltC]
      intro hnil
      rw [List.map_eq_nil_iff] at hnil
      exact hids_ne hnil
    obtain ⟨q, hq⟩ := List.exists_mem_of_ne_nil _ hfilt_ne
    have hqmem := List.mem_filter.mp hq
    have hqpar : q.parentId = some ps.length := by simpa using hqmem.2
    have hq2 : q ∈ ps ++ (⟨ps.length, ty, v, d, avg, (d : ℚ) * VERTICAL_GAP,
        pid⟩ : PositionedNode) :: newC := by
      exact List.mem_append.mpr (Or.inr (List.mem_cons_of_mem _ hqmem.1))
    have hfalse : isLeafIdx (ps ++ (⟨ps.length, ty, v, d, avg,
        (d : ℚ) * VERTICAL_GAP, pid⟩ : PositionedNode) :: newC) ps.length =
        false := isLeafIdx_false _ q _ hq2 hqpar
    rw [hset]
    rw [List.filter_cons]
    have hpredfalse : (isLeafIdx (ps ++ (⟨ps.length, ty, v, d, avg,
        (d : ℚ) * VERTICAL_GAP, pid⟩ : PositionedNode) :: newC)
        (⟨ps.length, ty, v, d, avg, (d : ℚ) * VERTICAL_GAP,
          pid⟩ : PositionedNode).id) = false := hfalse
    rw [hpredfalse]
    simp only [Bool.false_eq_true, if_false]
    have hmap_eq : (ps ++ (⟨ps.length, ty, v, d, avg, (d : ℚ) * VERTICAL_GAP,
        pid⟩ : PositionedNode) :: newC).map (fun p => p.parentId) =
        psA.map (fun p => p.parentId) := by
      rw [hAc]
      simp
    have hcongr : ∀ p ∈ newC,
        (isLeafIdx (ps ++ (⟨ps.length, ty, v, d, avg, (d : ℚ) * VERTICAL_GAP,
          pid⟩ : PositionedNode) :: newC) p.id) = isLeafIdx psA p.id := by
      intro p _
      exact isLeafIdx_congr _ _ _ hmap_eq
    rw [List.filter_congr hcongr, hleafC]
    have : leafCountList [ASTNode.mk ty v (ch :: cs)] =
        leafCountList (ch :: cs) := by
      simp [leafCountList, leafCount]
    rw [this]

theorem visitForest_nil_spec (d : Nat) (pid : Option Nat)
    (ps : List PositionedNode) (c : Nat) :
    SpecF pid ps c [] (visitForest [] d pid ps c).1
      (visitForest [] d pid ps c).2.1 (visitForest [] d pid ps c).2.2 := by
  simp only [visitForest]
  refine ⟨[], by simp, by simp [leafCountList], rfl, by simp, by simp, ?_, ?_, ?_⟩
  · intro p hp
    exact absurd hp (List.not_mem_nil p)
  · intro i h1 h2 hne
    exact absurd h2 (by omega)
  · simp [List.range', leafCountList]

theorem visitForest_cons_spec (n : ASTNode) (rest : List ASTNode) (d : Nat)
    (pid : Option Nat) (ps : List PositionedNode) (c : Nat)
    (hPid : PidOk ps pid)
    (hV : SpecF pid ps c [n] (visit n d pid ps c).1 (visit n d pid ps c).2.1
      [(visit n d pid ps c).2.2])
    (hR : SpecF pid (visit n d pid ps c).1 (visit n d pid ps c).2.1 rest
      (visitForest rest d pid (visit n d pid ps c).1
        (visit n d pid ps c).2.1).1
      (visitForest rest d pid (visit n d pid ps c).1
        (visit n d pid ps c).2.1).2.1
      (visitForest rest d pid (visit n d pid ps c).1
        (visit n d pid ps c).2.1).2.2) :
    SpecF pid ps c (n :: rest) (visitForest (n :: rest) d pid ps c).1
      (visitForest (n :: rest) d pid ps c).2.1
      (visitForest (n :: rest) d pid ps c).2.2 := by
  obtain ⟨new1, hA1, hc1, _hlen1, hids1, hfilt1, hmem1, hmean1, hleaf1⟩ := hV
  obtain ⟨new2, hA2, hc22, hlen2, hids2, hfilt2, hmem2, hmean2, hleaf2⟩ := hR
  have hpid_ne : ∀ i, ps.length ≤ i → ¬(pid = some i) := by
    intro i hi hc
    rcases hPid with rfl | ⟨q, hq, hqlt⟩
    · exact Option.noConfusion hc
    · rw [hq] at hc
      injection hc with he
      omega
  have hv : visitForest (n :: rest) d pid ps c =
      ((visitForest rest d pid (visit n d pid ps c).1
          (visit n d pid ps c).2.1).1,
       (visitForest rest d pid (visit n d pid ps c).1
          (visit n d pid ps c).2.1).2.1,
       (visit n d pid ps c).2.2 ::
         (visitForest rest d pid (visit n d pid ps c).1
           (visit n d pid ps c).2.1).2.2) := by
    simp only [visitForest]
  have hlenA : (visit n d pid ps c).1.length = ps.length + new1.length := by
    rw [hA1]
    simp
  have hlen22 : (visitForest rest d pid (visit n d pid ps c).1
      (visit n d pid ps c).2.1).1.length =
      ps.length + new1.length + new2.length := by
    rw [hA2]
    simp only [List.length_append, hlenA]
  have hnew2_no_low : ∀ i, i < (visit n d pid ps c).1.length →
      ps.length ≤ i → ∀ q ∈ new2, ¬(q.parentId = some i) := by
    intro i hiA hips q hq hpar
    rcases (hmem2 q hq).2.2.2 with h1 | ⟨k, hk1, hk2, hk3⟩
    · rw [hpar] at h1
      exact hpid_ne i hips h1.symm
    · rw [hpar] at hk3
      injection hk3 with he
      omega
  rw [hv]
  refine ⟨new1 ++ new2, ?_, ?_, ?_, ?_, ?_, ?_, ?_, ?_⟩
  · rw [hA2, hA1, List.append_assoc]
  · rw [hc22, hc1]
    simp only [leafCountList, leafCount]
    omega
  · simp only [List.length_cons, hlen2]
  · intro a ha
    rcases List.mem_cons.mp ha with rfl | ha2
    · have := hids1 _ (List.mem_singleton_self _)
      refine ⟨this.1, ?_⟩
      rw [hlen22]
      rw [hlenA] at this
      omega
    · have := hids2 a ha2
      rw [hlenA] at this
      exact ⟨by omega, this.2⟩
  · rw [List.filter_append, hfilt1, hfilt2]
    simp only [List.map_cons, List.map_nil, List.nil_append, List.cons_append]
    have hid1 := hids1 (visit n d pid ps c).2.2 (List.mem_singleton_self _)
    congr 1
    rw [hA2]
    exact (List.getD_append _ _ default _ hid1.2).symm
  · intro p hp
    rcases List.mem_append.mp hp with h1 | h1
    · obtain ⟨ha, hb, hy, hpar⟩ := hmem1 p h1
      refine ⟨ha, ?_, hy, hpar⟩
      rw [hlen22]
      rw [hlenA] at hb
      omega
    · obtain ⟨ha, hb, hy, hpar⟩ := hmem2 p h1
      rw [hlenA] at ha
      refine ⟨by omega, hb, hy, ?_⟩
      rcases hpar with h2 | ⟨k, hk1, hk2, hk3⟩
      · exact Or.inl h2
      · rw [hlenA] at hk1
        exact Or.inr ⟨k, by omega, hk2, hk3⟩
  · intro i h1 h2 hne
    by_cases hiA : i < (visit n d pid ps c).1.length
    · have hxeq : childXs (visitForest rest d pid (visit n d pid ps c).1
          (visit n d pid ps c).2.1).1 i = childXs (visit n d pid ps c).1 i := by
        rw [hA2, childXs_append,
          childXs_eq_nil new2 i (hnew2_no_low i hiA h1), List.append_nil]
      have hgeq : (visitForest rest d pid (visit n d pid ps c).1
          (visit n d pid ps c).2.1).1.getD i default =
          (visit n d pid ps c).1.getD i default := by
        rw [hA2]
        exact List.getD_append _ _ default _ hiA
      rw [hxeq, hgeq]
      refine hmean1 i h1 hiA ?_
      rw [← hxeq]
      exact hne
    · refine hmean2 i ?_ h2 hne
      omega
  · rw [List.filter_append, List.map_append]
    have hcongr : ∀ p ∈ new1,
        (isLeafIdx (visitForest rest d pid (visit n d pid ps c).1
          (visit n d pid ps c).2.1).1 p.id) =
        isLeafIdx (visit n d pid ps c).1 p.id := by
      intro p hp
      obtain ⟨ha, hb, _, _⟩ := hmem1 p hp
      rw [hA2]
      exact isLeafIdx_append _ _ _ (hnew2_no_low p.id hb ha)
    rw [List.filter_congr hcongr, hleaf1, hleaf2, hc1]
    have hcnt : leafCountList [n] = leafCount n := by
      simp [leafCountList]
    rw [hcnt]
    rw [← List.map_append, range'_append_nat]
    rfl

theorem layout_sound : ∀ K : Nat,
    (∀ (n : ASTNode) (d : Nat) (pid : Option Nat) (ps : List PositionedNode)
       (c : Nat), 2 * szNode n ≤ K → ParentsClosed ps → PidOk ps pid →
       SpecF pid ps c [n] (visit n d pid ps c).1 (visit n d pid ps c).2.1
         [(visit n d pid ps c).2.2]) ∧
    (∀ (l : List ASTNode) (d : Nat) (pid : Option Nat)
       (ps : List PositionedNode) (c : Nat),
       2 * szForest l + 1 ≤ K → ParentsClosed ps → PidOk ps pid →
       SpecF pid ps c l (visitForest l d pid ps c).1
         (visitForest l d pid ps c).2.1 (visitForest l d pid ps c).2.2) := by
  intro K
  induction K using Nat.strong_induction_on with
  | _ K IH =>
    constructor
    · intro n d pid ps c hK hPC hPid
      cases n with
      | mk ty v children =>
          cases children with
          | nil => exact visit_leaf_spec ty v d pid ps c hPC hPid
          | cons ch cs =>
              apply visit_internal_spec ty v ch cs d pid ps c hPC hPid
              have hsz : 2 * szForest (ch :: cs) + 1 < K := by
                have he : szNode (.mk ty v (ch :: cs)) =
                    1 + szForest (ch :: cs) := rfl
                rw [he] at hK
                omega
              have hPC1 : ParentsClosed (ps ++
                  [⟨ps.length, ty, v, d, 0, (d : ℚ) * VERTICAL_GAP, pid⟩]) := by
                refine ParentsClosed_extend ps _ pid hPC hPid ?_
                intro p hp
                simp only [List.mem_singleton] at hp
                subst hp
                refine ⟨?_, Or.inl rfl⟩
                simp
              have hPid1 : PidOk (ps ++
                  [⟨ps.length, ty, v, d, 0, (d : ℚ) * VERTICAL_GAP, pid⟩])
                  (some ps.length) := by
                refine Or.inr ⟨ps.length, rfl, ?_⟩
                simp
              exact (IH (2 * szForest (ch :: cs) + 1) hsz).2 (ch :: cs) (d + 1)
                (some ps.length) _ c le_rfl hPC1 hPid1
    · intro l d pid ps c hK hPC hPid
      cases l with
      | nil => exact visitForest_nil_spec d pid ps c
      | cons n rest =>
          have heq : szForest (n :: rest) = szNode n + szForest rest := rfl
          have hszV : 2 * szNode n < K := by
            rw [heq] at hK
            omega
          have hV := (IH (2 * szNode n) hszV).1 n d pid ps c le_rfl hPC hPid
          have hVkeep := hV
          obtain ⟨new1, hA1, _, _, _, _, hmem1, _, _⟩ := hVkeep
          have hPC2 : ParentsClosed (visit n d pid ps c).1 := by
            rw [hA1]
            refine ParentsClosed_extend ps new1 pid hPC hPid ?_
            intro p hp
            obtain ⟨_, hb, _, hpar⟩ := hmem1 p hp
            rw [hA1] at hb
            exact ⟨hb, hpar⟩
          have hPid2 : PidOk (visit n d pid ps c).1 pid := by
            rcases hPid with rfl | ⟨q, hq, hqlt⟩
            · exact Or.inl rfl
            · refine Or.inr ⟨q, hq, ?_⟩
              rw [hA1, List.length_append]
              omega
          have hszR : 2 * szForest rest + 1 < K := by
            have := szNode_pos n
            rw [heq] at hK
            omega
          have hR := (IH (2 * szForest rest + 1) hszR).2 rest d pid
            (visit n d pid ps c).1 (visit n d pid ps c).2.1 le_rfl hPC2 hPid2
          exact visitForest_cons_spec n rest d pid ps c hPid hV hR

/-- C1: `layoutForest` assigns every node a depth-based row — in the
final output every node's `y` is its depth times the vertical gap 120 —
and, before the final normalization shift, the leaves occupy the
consecutive horizontal cursor slots `0 * 150, 1 * 150, ...` in
left-to-right order while every node with at least one child sits at the
arithmetic mean of its children's x coordinates. -/
theorem claim_C1 (nodes : List ASTNode) :
    (∀ p ∈ layoutForest nodes, p.y = (p.depth : ℚ) * 120) ∧
    leafXs (layoutForestPre nodes) =
      (List.range (leafXs (layoutForestPre nodes)).length).map
        (fun k : ℕ => (k : ℚ) * 150) ∧
    (∀ i, i < (layoutForestPre nodes).length →
       childXs (layoutForestPre nodes) i ≠ [] →
       ((layoutForestPre nodes).getD i default).x =
         (childXs (layoutForestPre nodes) i).sum /
           ((childXs (layoutForestPre nodes) i).length : ℚ)) := by
  have hspec := (layout_sound (2 * szForest nodes + 1)).2 nodes 0 none [] 0
    le_rfl (fun p hp => absurd hp (List.not_mem_nil p)) (Or.inl rfl)
  obtain ⟨new, hA, _hc, _hlen, _hids, _hfilt, hmem, hmean, hleaf⟩ := hspec
  rw [List.nil_append] at hA
  have hpre : layoutForestPre nodes = new := hA
  have hymem : ∀ p ∈ layoutForestPre nodes, p.y = (p.depth : ℚ) * 120 := by
    intro p hp
    rw [hpre] at hp
    exact (hmem p hp).2.2.1
  refine ⟨?_, ?_, ?_⟩
  · intro p hp
    simp only [layoutForest] at hp
    split at hp
    · exact hymem p hp
    · rw [List.mem_map] at hp
      obtain ⟨q, hq, rfl⟩ := hp
      exact hymem q hq
  · rw [hA] at hleaf
    show ((layoutForestPre nodes).filter
      (fun p => isLeafIdx (layoutForestPre nodes) p.id)).map (fun p => p.x) = _
    have hlen3 : (((layoutForestPre nodes).filter
        (fun p => isLeafIdx (layoutForestPre nodes) p.id)).map
          (fun p => p.x)).length = leafCountList nodes := by
      rw [hpre]
      rw [hleaf]
      simp
    show _ = (List.range (((layoutForestPre nodes).filter
      (fun p => isLeafIdx (layoutForestPre nodes) p.id)).map
        (fun p => p.x)).length).map (fun k : ℕ => (k : ℚ) * 150)
    rw [hlen3, List.range_eq_range']
    rw [hpre]
    exact hleaf
  · intro i hi hne
    exact hmean i (by simp) hi hne

/-- Witness for C1 on the two-leaf tree `Module [A, B]`: the leaves take
slots `0` and `150` and the root is placed at their mean `75`. -/
theorem claim_C1_witness :
    ((0 < (layoutForestPre
        [ASTNode.mk "Module" none
          [ASTNode.mk "A" none [], ASTNode.mk "B" none []]]).length ∧
      childXs (layoutForestPre
        [ASTNode.mk "Module" none
          [ASTNode.mk "A" none [], ASTNode.mk "B" none []]]) 0 ≠ []) ∧
     ((layoutForestPre
        [ASTNode.mk "Module" none
          [ASTNode.mk "A" none [], ASTNode.mk "B" none []]]).getD 0
        default).x =
       (childXs (layoutForestPre
          [ASTNode.mk "Module" none
            [ASTNode.mk "A" none [], ASTNode.mk "B" none []]]) 0).sum /
         ((childXs (layoutForestPre
            [ASTNode.mk "Module" none
              [ASTNode.mk "A" none [], ASTNode.mk "B" none []]]) 0).length :
            ℚ)) :=
  ⟨⟨by decide, by decide⟩,
   (claim_C1 [ASTNode.mk "Module" none
      [ASTNode.mk "A" none [], ASTNode.mk "B" none []]]).2.2 0 (by decide)
     (by decide)⟩

end Claims

end Plagify
